import Mathlib

set_option autoImplicit false
set_option linter.unusedVariables false
set_option linter.unnecessarySeqFocus false

/-!
Verification of the onyxconfig tool's configuration-record model and
mutation logic (src/onyxconfig_tool.py).

The stored values are JSON documents handled by Python dicts; we embed
JSON documents as the inductive type `JVal`, Python dicts as association
lists with unique keys (insertion order preserved, as in Python), the
MMKV store as an association list from string keys to raw string values,
and the codec as an executable serializer plus a fuelled recursive-descent
reader mirroring `json.dumps(config, separators=(",", ":"))` and
`json.loads` on the compact fragment the tool reads and writes (integer
numerals, strings without escape sequences, arrays, objects).  A Python
operation that can raise an uncaught exception is embedded with result
type `Option`, where `none` marks the raised exception.
-/

/-- A JSON document: the values `json.loads` produces for this tool's
records (numbers restricted to integers, which is all the tool and its
records use). -/
inductive JVal where
  | null : JVal
  | bool (b : Bool) : JVal
  | num (n : Int) : JVal
  | str (s : String) : JVal
  | arr (elems : List JVal) : JVal
  | obj (fields : List (String × JVal)) : JVal

/-- Lookup in a Python dict (association list with unique keys):
`d[k]` / `d.get(k)`. -/
def lookupKey {α : Type} : List (String × α) → String → Option α
  | [], _ => none
  | (k, v) :: rest, key => if k = key then some v else lookupKey rest key

/-- Python `key in d` on a dict. -/
def hasKey {α : Type} (l : List (String × α)) (key : String) : Bool :=
  (lookupKey l key).isSome

/-- Python dict assignment `d[k] = v`: replace the value in place when
the key is present, else append the new pair at the end (insertion
order). -/
def setKey {α : Type} : List (String × α) → String → α → List (String × α)
  | [], key, v => [(key, v)]
  | (k, w) :: rest, key, v =>
    if k = key then (k, v) :: rest else (k, w) :: setKey rest key v

/-- Python `del d[k]` on a dict: drop the (unique) entry with that key;
on an association list this removes the first occurrence. -/
def delKey {α : Type} : List (String × α) → String → List (String × α)
  | [], _ => []
  | (k, w) :: rest, key =>
    if k = key then rest else (k, w) :: delKey rest key

/-- Keys of an association list are pairwise distinct, as they are in
every Python dict. -/
def keysNodup {α : Type} : List (String × α) → Bool
  | [] => true
  | (k, _) :: rest => !hasKey rest k && keysNodup rest

/-- Python truthiness of a JSON value (`if not config:` and friends):
`None`, `False`, `0`, `""`, `[]` and the empty dict are falsy. -/
def pyTruthy : JVal → Bool
  | JVal.null => false
  | JVal.bool b => b
  | JVal.num n => !(n == 0)
  | JVal.str s => !(s == "")
  | JVal.arr vs => !vs.isEmpty
  | JVal.obj ms => !ms.isEmpty

/-- Python truthiness of an optional value, `None` being falsy; this is
the test applied to the results of `dict.get`. -/
def truthyOpt : Option JVal → Bool
  | none => false
  | some v => pyTruthy v

/-- The MMKV store: raw string values under string keys
(`OnyxMMKVHandler.db`). -/
structure OnyxStore where
  entries : List (String × String)
deriving DecidableEq

/-- `db.getString(key)` followed by the presence test: `none` when the
key is absent. -/
def OnyxStore.get (s : OnyxStore) (key : String) : Option String :=
  lookupKey s.entries key

/-- `db.set(key, value)`. -/
def OnyxStore.set (s : OnyxStore) (key : String) (v : String) : OnyxStore :=
  ⟨setKey s.entries key v⟩

/-! ## Config Codec

`set_app_config` serializes with `json.dumps(config, separators=(",", ":"))`
(compact, insertion order, deterministic); `get_app_config` reads with
`json.loads`, any failure giving `None`.  The serializer below follows
`json.dumps` on this tool's documents; the reader is a fuelled
recursive-descent model of `json.loads` on the compact fragment the
serializer emits (plus the whitespace-free inputs the tool reads, such
as the record text of two braces). -/

/-- Decimal digits of a natural number, most significant first, as
`json.dumps` prints a non-negative integer. -/
def natChars (n : Nat) : List Char :=
  if n < 10 then [Nat.digitChar n]
  else natChars (n / 10) ++ [Nat.digitChar (n % 10)]
decreasing_by exact Nat.div_lt_self (by omega) (by omega)

/-- Decimal numeral of an integer, with a leading minus sign when
negative. -/
def intChars (i : Int) : List Char :=
  if i < 0 then '-' :: natChars i.natAbs else natChars i.natAbs

mutual

/-- Characters emitted for one JSON value by
`json.dumps(_, separators=(",", ":"))`. -/
def encChars : JVal → List Char
  | JVal.null => ['n', 'u', 'l', 'l']
  | JVal.bool true => ['t', 'r', 'u', 'e']
  | JVal.bool false => ['f', 'a', 'l', 's', 'e']
  | JVal.num i => intChars i
  | JVal.str s => '"' :: s.data ++ ['"']
  | JVal.arr vs => '[' :: encArr vs ++ [']']
  | JVal.obj ms => '{' :: encObj ms ++ ['}']

/-- Comma-separated encodings of array elements. -/
def encArr : List JVal → List Char
  | [] => []
  | [v] => encChars v
  | v :: vs => encChars v ++ ',' :: encArr vs

/-- Comma-separated `"key":value` encodings of object members. -/
def encObj : List (String × JVal) → List Char
  | [] => []
  | [(k, v)] => '"' :: k.data ++ '"' :: ':' :: encChars v
  | (k, v) :: ms => '"' :: k.data ++ '"' :: ':' :: encChars v ++ ',' :: encObj ms

end

/-- `json.dumps(config, separators=(",", ":"))`. -/
def jsonEncode (v : JVal) : String :=
  ⟨encChars v⟩

/-- A character the serializer can emit inside a string literal without
escaping: printable ASCII other than the quote and the backslash.  The
records this tool stores hold Java class names, which stay inside this
set; escape sequences are outside the embedded fragment. -/
def okChar (c : Char) : Bool :=
  !(c == '"') && !(c == '\\') && 32 ≤ c.toNat && c.toNat ≤ 126

/-- A string the serializer emits verbatim between quotes. -/
def okName (s : String) : Bool :=
  s.data.all okChar

mutual

/-- A document in the embedded codec fragment: strings escape-free
printable ASCII, object keys pairwise distinct as in every Python
dict. -/
def wfJ : JVal → Bool
  | JVal.null => true
  | JVal.bool _ => true
  | JVal.num _ => true
  | JVal.str s => okName s
  | JVal.arr vs => wfArr vs
  | JVal.obj ms => keysNodup ms && wfObj ms

/-- Every element of the list is a well-formed document. -/
def wfArr : List JVal → Bool
  | [] => true
  | v :: vs => wfJ v && wfArr vs

/-- Every member has a well-formed key and value. -/
def wfObj : List (String × JVal) → Bool
  | [] => true
  | (k, v) :: ms => okName k && wfJ v && wfObj ms

end

mutual

/-- Fuel sufficient for the reader to consume one encoded value. -/
def needJ : JVal → Nat
  | JVal.arr vs => 1 + needElems vs
  | JVal.obj ms => 1 + needMembers ms
  | _ => 1

/-- Fuel sufficient to consume an encoded element list up to its
closing bracket. -/
def needElems : List JVal → Nat
  | [] => 1
  | v :: vs => 1 + max (needJ v) (needElems vs)

/-- Fuel sufficient to consume an encoded member list up to its closing
brace. -/
def needMembers : List (String × JVal) → Nat
  | [] => 1
  | (_, v) :: ms => 1 + max (needJ v) (needMembers ms)

end

/-- Digits of a numeral folded back into the natural number they
denote. -/
def digitsVal (cs : List Char) : Nat :=
  cs.foldl (fun a c => a * 10 + (c.toNat - 48)) 0

/-- Read a non-negative decimal numeral: the longest digit run, which
must be non-empty. -/
def parseNatPart (cs : List Char) : Option (Nat × List Char) :=
  let ds := cs.takeWhile (fun c => c.isDigit)
  if ds.isEmpty then none
  else some (digitsVal ds, cs.dropWhile (fun c => c.isDigit))

/-- Read the body of a string literal after its opening quote, up to the
closing quote; escape sequences are outside the embedded fragment. -/
def parseStringBody : List Char → Option (String × List Char)
  | [] => none
  | c :: rest =>
    if c = '"' then some ("", rest)
    else if c = '\\' then none
    else (parseStringBody rest).map (fun p => (⟨c :: p.1.data⟩, p.2))

mutual

/-- Read one JSON value from the head of the input; the `Nat` argument
is recursion fuel. -/
def parseVal : Nat → List Char → Option (JVal × List Char)
  | 0, _ => none
  | fuel + 1, cs =>
    match cs with
    | [] => none
    | c :: rest =>
      if c = 'n' then
        match rest with
        | 'u' :: 'l' :: 'l' :: r => some (JVal.null, r)
        | _ => none
      else if c = 't' then
        match rest with
        | 'r' :: 'u' :: 'e' :: r => some (JVal.bool true, r)
        | _ => none
      else if c = 'f' then
        match rest with
        | 'a' :: 'l' :: 's' :: 'e' :: r => some (JVal.bool false, r)
        | _ => none
      else if c = '"' then
        (parseStringBody rest).map (fun p => (JVal.str p.1, p.2))
      else if c = '[' then
        (parseElems fuel rest).map (fun p => (JVal.arr p.1, p.2))
      else if c = '{' then
        (parseMembers fuel rest).map (fun p => (JVal.obj p.1, p.2))
      else if c = '-' then
        (parseNatPart rest).map (fun p => (JVal.num (-(p.1 : Int)), p.2))
      else if c.isDigit then
        (parseNatPart (c :: rest)).map (fun p => (JVal.num (p.1 : Int), p.2))
      else none

/-- Read array elements after the opening bracket, consuming the closing
bracket. -/
def parseElems : Nat → List Char → Option (List JVal × List Char)
  | 0, _ => none
  | fuel + 1, cs =>
    if cs.head? = some ']' then some ([], cs.tail)
    else
      match parseVal fuel cs with
      | none => none
      | some (v, r) =>
        match r with
        | ',' :: r2 => (parseElems fuel r2).map (fun p => (v :: p.1, p.2))
        | ']' :: r2 => some ([v], r2)
        | _ => none

/-- Read object members after the opening brace, consuming the closing
brace. -/
def parseMembers : Nat → List Char → Option (List (String × JVal) × List Char)
  | 0, _ => none
  | fuel + 1, cs =>
    if cs.head? = some '}' then some ([], cs.tail)
    else
      match cs with
      | '"' :: rest =>
        match parseStringBody rest with
        | none => none
        | some (k, r) =>
          match r with
          | ':' :: r2 =>
            match parseVal fuel r2 with
            | none => none
            | some (v, r3) =>
              match r3 with
              | ',' :: r4 => (parseMembers fuel r4).map (fun p => ((k, v) :: p.1, p.2))
              | '}' :: r4 => some ([(k, v)], r4)
              | _ => none
          | _ => none
      | _ => none

end

/-- `json.loads` on a stored value, with every failure collapsed to
`none`: the whole input must be consumed as one value. -/
def jsonDecode (s : String) : Option JVal :=
  match parseVal (s.length + 1) s.data with
  | some (v, []) => some v
  | _ => none

/-! ## Store Adapter operations on application records -/

/-- `OnyxMMKVHandler.get_app_config`: read the raw value under
`eac_app_<package>` and parse it, any exception giving `None` (a missing
key reads as the empty string, which `json.loads` rejects). -/
def get_app_config (s : OnyxStore) (package_name : String) : Option JVal :=
  match s.get ("eac_app_" ++ package_name) with
  | none => none
  | some raw => jsonDecode raw

/-- `OnyxMMKVHandler.set_app_config`: serialize compactly and store under
`eac_app_<package>`; the store accepts the write and the call reports
success. -/
def set_app_config (s : OnyxStore) (package_name : String) (config : JVal) :
    Bool × OnyxStore :=
  (true, s.set ("eac_app_" ++ package_name) (jsonEncode config))

/-! ## Activity Configuration Builder -/

/-- `HandwritingOptimizer.create_activity_config`: the fixed
handwriting-optimized activity document, echoing the activity name under
`clsName` and the draw view key under `noteConfig.drawViewKey`. -/
def create_activity_config (draw_view_key : String) (activity_name : String) : JVal :=
  JVal.obj
    [ ("clsName", JVal.str activity_name)
    , ("disableScrollAnim", JVal.bool false)
    , ("displayConfig", JVal.obj
        [ ("bwMode", JVal.num 0)
        , ("cfaColorBrightness", JVal.num 0)
        , ("cfaColorSaturation", JVal.num 0)
        , ("cfaColorSaturationMin", JVal.num 60)
        , ("contrast", JVal.num 30)
        , ("ditherThreshold", JVal.num 128)
        , ("enable", JVal.bool true)
        , ("enhance", JVal.bool true)
        , ("monoLevel", JVal.num 10) ])
    , ("enable", JVal.bool true)
    , ("noteConfig", JVal.obj
        [ ("compatibleVersionCode", JVal.num 0)
        , ("drawViewKey", JVal.str draw_view_key)
        , ("enable", JVal.bool true)
        , ("globalStrokeStyle", JVal.obj
            [ ("enable", JVal.bool true)
            , ("strokeColor", JVal.num (-16777216))
            , ("strokeExtraArgs", JVal.arr [])
            , ("strokeParams", JVal.arr [])
            , ("strokeStyle", JVal.num 0)
            , ("strokeWidth", JVal.num 3) ])
        , ("repaintLatency", JVal.num 500)
        , ("styleMap", JVal.obj [])
        , ("supportNoteConfig", JVal.bool true) ])
    , ("paintConfig", JVal.obj
        [ ("antiAlisingType", JVal.num 0)
        , ("ditherBitmap", JVal.bool false)
        , ("enable", JVal.bool true)
        , ("fillBrightness", JVal.num 0)
        , ("fillContrast", JVal.num 0)
        , ("fillEAC", JVal.bool false)
        , ("iconBrightness", JVal.num 0)
        , ("iconContrast", JVal.num 0)
        , ("iconEAC", JVal.bool false)
        , ("iconThreshold", JVal.num 0)
        , ("imgEAC", JVal.bool true)
        , ("imgGamma", JVal.num 60)
        , ("quantBits", JVal.num 3)
        , ("textBold", JVal.bool false)
        , ("textEACType", JVal.num 0) ])
    , ("refreshConfig", JVal.obj
        [ ("animationDuration", JVal.num 50)
        , ("antiFlicker", JVal.num 10)
        , ("enable", JVal.bool true)
        , ("gcInterval", JVal.num 20)
        , ("supportRegal", JVal.bool false)
        , ("turbo", JVal.num 2)
        , ("updateMode", JVal.num 2)
        , ("useGCForNewSurface", JVal.bool false) ]) ]

/-! ## Optimization Manager -/

/-- `HandwritingOptimizer.enable_handwriting`: locate the record (the
code's not-found test is Python truthiness of the parsed value), insert
the activity configuration under `activityConfigMap` (initializing the
map when the field is absent), and persist.  `none` marks an uncaught
exception: a truthy record that is not a JSON object, or an
`activityConfigMap` field that is not an object. -/
def enable_handwriting (s : OnyxStore) (package_name : String)
    (draw_view_key : String) (activity_name : String) : Option (Bool × OnyxStore) :=
  let config := get_app_config s package_name
  if truthyOpt config = false then some (false, s)
  else
    match config with
    | some (JVal.obj fields) =>
      let fields1 :=
        if hasKey fields "activityConfigMap" then fields
        else setKey fields "activityConfigMap" (JVal.obj [])
      match lookupKey fields1 "activityConfigMap" with
      | some (JVal.obj amap) =>
        let cfg := create_activity_config draw_view_key activity_name
        some (set_app_config s package_name
          (JVal.obj (setKey fields1 "activityConfigMap" (JVal.obj (setKey amap activity_name cfg)))))
      | _ => none
    | _ => none

/-- The loop body test of the scoped-removal pass:
`note_config = act_config.get("noteConfig", {})` then
`note_config.get("enable") and note_config.get("drawViewKey")` under
Python truthiness.  `none` marks the `AttributeError` raised when the
entry or its `noteConfig` value is not a dict. -/
def activeTestPy : JVal → Option Bool
  | JVal.obj fs =>
    match (lookupKey fs "noteConfig").getD (JVal.obj []) with
    | JVal.obj nfs =>
      some (truthyOpt (lookupKey nfs "enable") && truthyOpt (lookupKey nfs "drawViewKey"))
    | _ => none
  | _ => none

/-- The `to_remove` comprehension of `disable_handwriting`: keys of the
entries passing `activeTestPy`, in map order; `none` when some entry
raises. -/
def activeKeys : List (String × JVal) → Option (List String)
  | [] => some []
  | (k, v) :: rest =>
    match activeTestPy v, activeKeys rest with
    | some b, some ks => some (if b then k :: ks else ks)
    | _, _ => none

/-- The removal loop `for act_name in to_remove: del activity_map[act_name]`. -/
def removeKeys (amap : List (String × JVal)) (ks : List String) :
    List (String × JVal) :=
  ks.foldl (fun m k => delKey m k) amap

/-- `HandwritingOptimizer.disable_handwriting`: locate the record; an
empty or absent (or otherwise falsy) `activityConfigMap` reports success
with no write; with an activity name, drop that entry or report failure;
without one, drop every entry passing `activeTestPy`; then persist.
`none` marks an uncaught exception (a truthy record or a truthy
`activityConfigMap` that is not a JSON object, or a raising entry). -/
def disable_handwriting (s : OnyxStore) (package_name : String)
    (activity_name : Option String) : Option (Bool × OnyxStore) :=
  let config := get_app_config s package_name
  if truthyOpt config = false then some (false, s)
  else
    match config with
    | some (JVal.obj fields) =>
      let amapVal := (lookupKey fields "activityConfigMap").getD (JVal.obj [])
      if pyTruthy amapVal = false then some (true, s)
      else
        match amapVal with
        | JVal.obj amap =>
          match activity_name with
          | some act =>
            if hasKey amap act then
              some (set_app_config s package_name
                (JVal.obj (setKey fields "activityConfigMap" (JVal.obj (delKey amap act)))))
            else some (false, s)
          | none =>
            match activeKeys amap with
            | none => none
            | some ks =>
              some (set_app_config s package_name
                (JVal.obj (setKey fields "activityConfigMap" (JVal.obj (removeKeys amap ks)))))
        | _ => none
    | _ => none

/-! ## Preset Catalog and the quick subcommand -/

/-- One entry of the `KNOWN_APPS` table. -/
structure AppInfo where
  name : String
  drawViewKey : String
  commonActivities : List String

/-- The `KNOWN_APPS` preset catalog. -/
def KNOWN_APPS : List (String × AppInfo) :=
  [ ("com.xodo.pdf.reader",
     ⟨"Xodo PDF Reader", "com.pdftron.pdf.PDFViewCtrl",
      [ "com.xodo.presentation.activity.TabletReaderActivity"
      , "com.xodo.presentation.activity.ReaderActivity" ]⟩)
  , ("com.steadfastinnovation.android.projectpapyrus",
     ⟨"Squid", "com.steadfastinnovation.android.projectpapyrus.ui.widget.PageViewContainer",
      [ "com.steadfastinnovation.android.projectpapyrus.ui.MainActivity" ]⟩)
  , ("md.obsidian",
     ⟨"Obsidian (Excalidraw/Ink)", "com.getcapacitor.CapacitorWebView",
      [ "md.obsidian.MainActivity" ]⟩)
  , ("com.penly.penly",
     ⟨"Penly", "com.penly.penly.editor.views.EditorView",
      [ "com.penly.penly.editor.EditorActivity" ]⟩)
  , ("jp.ne.ibis.ibispaintx",
     ⟨"Ibis Paint X", "jp.ne.ibis.ibispaintx.app.glwtk.IbisPaintView",
      [ "jp.ne.ibis.ibispaintx.app.MainActivity" ]⟩)
  , ("com.medibang.android.paint.tablet",
     ⟨"MediBang Paint", "com.medibang.android.paint.tablet.ui.widget.CanvasView",
      [ "com.medibang.android.paint.tablet.MainActivity" ]⟩)
  , ("org.joplin.react",
     ⟨"Joplin (Drawing plugin)", "com.reactnativecommunity.webview.RNCWebView",
      [ "org.joplin.react.MainActivity" ]⟩)
  , ("com.easyinnovation.notebook.gfree",
     ⟨"DrawNote", "com.dragonnest.app.view.DrawingContainerView",
      [ "com.easyinnovation.notebook.gfree.MainActivity" ]⟩)
  , ("com.microsoft.office.onenote",
     ⟨"Microsoft OneNote", "com.microsoft.office.onenote.drawing.CanvasView",
      [ "com.microsoft.office.onenote.ui.main.MainActivity" ]⟩) ]

/-- Observable outcome of the `quick` subcommand: the process exit code,
whether the backup copies were made, and the resulting store. -/
structure QuickOutcome where
  exitCode : Nat
  backupMade : Bool
  store : OnyxStore
deriving DecidableEq

/-- The `quick` branch of `main`: an identifier absent from `KNOWN_APPS`
exits with status 1 before the backup and before any read or write of a
store entry; otherwise the backup runs (when requested), the catalog's
draw view key and the chosen or first candidate activity are selected,
and the work is delegated to `enable_handwriting`.  `none` marks an
uncaught exception. -/
def quick_command (s : OnyxStore) (app : String) (activity : Option String)
    (backup : Bool) : Option QuickOutcome :=
  match lookupKey KNOWN_APPS app with
  | none => some ⟨1, false, s⟩
  | some info =>
    match activity.orElse (fun _ => info.commonActivities.head?) with
    | none => none
    | some act =>
      match enable_handwriting s app info.drawViewKey act with
      | none => none
      | some (_, s2) => some ⟨0, backup, s2⟩

/-! ## The active test of the specification

The specification's §3 invariant: an entry is active exactly when its
`noteConfig.enable` is the boolean true and its `noteConfig.drawViewKey`
is a non-empty string.  Stated in the specification's words, to be
compared with the code's truthiness test `activeTestPy`. -/

/-- Active test as the specification words it. -/
def specActive : JVal → Bool
  | JVal.obj fs =>
    match lookupKey fs "noteConfig" with
    | some (JVal.obj nfs) =>
      (match lookupKey nfs "enable" with
       | some (JVal.bool true) => true
       | _ => false) &&
      (match lookupKey nfs "drawViewKey" with
       | some (JVal.str s) => !(s == "")
       | _ => false)
    | _ => false
  | _ => false

/-- An activity entry shaped as the data model describes: a document
whose `noteConfig`, when present, is a document whose `enable`, when
present, is a boolean and whose `drawViewKey`, when present, is a
string.  On such entries the code's truthiness test agrees with the
specification's active test. -/
def wfEntry : JVal → Bool
  | JVal.obj fs =>
    match lookupKey fs "noteConfig" with
    | none => true
    | some (JVal.obj nfs) =>
      (match lookupKey nfs "enable" with
       | none => true
       | some (JVal.bool _) => true
       | _ => false) &&
      (match lookupKey nfs "drawViewKey" with
       | none => true
       | some (JVal.str _) => true
       | _ => false)
    | some _ => false
  | _ => false

/-! ## Association list lemmas -/

theorem lookupKey_setKey_self {α : Type} (l : List (String × α)) (k : String) (v : α) :
    lookupKey (setKey l k v) k = some v := by
  induction l with
  | nil => simp [setKey, lookupKey]
  | cons hd tl ih =>
    obtain ⟨k0, w⟩ := hd
    by_cases h : k0 = k
    · simp [setKey, h, lookupKey]
    · simp [setKey, h, lookupKey, ih]

theorem lookupKey_setKey_ne {α : Type} (l : List (String × α)) (k k' : String) (v : α)
    (h : k' ≠ k) : lookupKey (setKey l k v) k' = lookupKey l k' := by
  have h2 : ¬(k = k') := fun hh => h hh.symm
  induction l with
  | nil => simp [setKey, lookupKey, h2]
  | cons hd tl ih =>
    obtain ⟨k0, w⟩ := hd
    by_cases h0 : k0 = k
    · subst h0
      simp [setKey, lookupKey, h2]
    · simp only [setKey, if_neg h0]
      by_cases h1 : k0 = k'
      · simp [lookupKey, h1]
      · simp [lookupKey, h1, ih]

theorem hasKey_setKey {α : Type} (l : List (String × α)) (k k' : String) (v : α) :
    hasKey (setKey l k v) k' = (k' == k || hasKey l k') := by
  by_cases h : k' = k
  · subst h
    simp [hasKey, lookupKey_setKey_self]
  · simp [hasKey, lookupKey_setKey_ne l k k' v h, h]

theorem lookupKey_delKey_ne {α : Type} (l : List (String × α)) (k k' : String)
    (h : k' ≠ k) : lookupKey (delKey l k) k' = lookupKey l k' := by
  induction l with
  | nil => simp [delKey]
  | cons hd tl ih =>
    obtain ⟨k0, w⟩ := hd
    by_cases h0 : k0 = k
    · subst h0
      have h1 : ¬(k0 = k') := fun hh => h hh.symm
      simp [delKey, lookupKey, h1]
    · simp only [delKey, if_neg h0]
      by_cases h1 : k0 = k'
      · simp [lookupKey, h1]
      · simp [lookupKey, h1, ih]

theorem filter_eq_self_of_not_hasKey {α : Type} (l : List (String × α)) (k : String)
    (h : hasKey l k = false) : l.filter (fun e => !(e.1 == k)) = l := by
  induction l with
  | nil => rfl
  | cons hd tl ih =>
    obtain ⟨k0, w⟩ := hd
    simp only [hasKey, lookupKey] at h
    by_cases h0 : k0 = k
    · simp [h0] at h
    · have hb : (k0 == k) = false := by simp [h0]
      simp only [if_neg h0] at h
      simp [List.filter_cons, hb, ih (by simpa [hasKey] using h)]

theorem delKey_eq_filter {α : Type} (l : List (String × α)) (k : String)
    (h : keysNodup l = true) : delKey l k = l.filter (fun e => !(e.1 == k)) := by
  induction l with
  | nil => rfl
  | cons hd tl ih =>
    obtain ⟨k0, w⟩ := hd
    simp only [keysNodup, Bool.and_eq_true, Bool.not_eq_true'] at h
    obtain ⟨h1, h2⟩ := h
    by_cases h0 : k0 = k
    · subst h0
      simp only [delKey, if_pos rfl, List.filter_cons]
      simp [filter_eq_self_of_not_hasKey tl k0 h1]
    · have hb : (k0 == k) = false := by simp [h0]
      simp [delKey, h0, List.filter_cons, hb, ih h2]

theorem lookupKey_filter_self {α : Type} (l : List (String × α)) (k : String) :
    lookupKey (l.filter (fun e => !(e.1 == k))) k = none := by
  induction l with
  | nil => rfl
  | cons hd tl ih =>
    obtain ⟨k0, w⟩ := hd
    by_cases h0 : k0 = k
    · simp [List.filter_cons, h0, ih]
    · have hb : (k0 == k) = false := by simp [h0]
      simp [List.filter_cons, hb, lookupKey, h0, ih]

theorem lookupKey_delKey_self {α : Type} (l : List (String × α)) (k : String)
    (h : keysNodup l = true) : lookupKey (delKey l k) k = none := by
  rw [delKey_eq_filter l k h]
  exact lookupKey_filter_self l k

theorem lookupKey_filter_none {α : Type} (l : List (String × α)) (p : String × α → Bool)
    (k : String) (h : lookupKey l k = none) : lookupKey (l.filter p) k = none := by
  induction l with
  | nil => rfl
  | cons hd tl ih =>
    obtain ⟨k0, w⟩ := hd
    simp only [lookupKey] at h
    by_cases hk : k0 = k
    · simp [hk] at h
    · have h2 : lookupKey tl k = none := by simpa [hk] using h
      by_cases hp : p (k0, w) = true
      · simp [List.filter_cons, hp, lookupKey, hk, ih h2]
      · simp only [Bool.not_eq_true] at hp
        simp [List.filter_cons, hp, ih h2]

theorem keysNodup_filter {α : Type} (l : List (String × α)) (p : String × α → Bool)
    (h : keysNodup l = true) : keysNodup (l.filter p) = true := by
  induction l with
  | nil => rfl
  | cons hd tl ih =>
    obtain ⟨k0, w⟩ := hd
    simp only [keysNodup, Bool.and_eq_true, Bool.not_eq_true'] at h
    obtain ⟨h1, h2⟩ := h
    by_cases hp : p (k0, w) = true
    · simp only [List.filter_cons, hp, if_pos rfl]
      simp only [keysNodup, Bool.and_eq_true, Bool.not_eq_true']
      refine ⟨?_, ih h2⟩
      simp only [hasKey] at h1 ⊢
      have h1n : lookupKey tl k0 = none := by
        cases hh : lookupKey tl k0 with
        | none => rfl
        | some u => simp [hh] at h1
      simp [lookupKey_filter_none tl p k0 h1n]
    · simp only [Bool.not_eq_true] at hp
      simp only [List.filter_cons, hp]
      exact ih h2

theorem keysNodup_delKey {α : Type} (l : List (String × α)) (k : String)
    (h : keysNodup l = true) : keysNodup (delKey l k) = true := by
  rw [delKey_eq_filter l k h]
  exact keysNodup_filter l _ h

theorem keysNodup_setKey {α : Type} (l : List (String × α)) (k : String) (v : α)
    (h : keysNodup l = true) : keysNodup (setKey l k v) = true := by
  induction l with
  | nil => simp [setKey, keysNodup, hasKey, lookupKey]
  | cons hd tl ih =>
    obtain ⟨k0, w⟩ := hd
    simp only [keysNodup, Bool.and_eq_true, Bool.not_eq_true'] at h
    obtain ⟨h1, h2⟩ := h
    by_cases h0 : k0 = k
    · subst h0
      simp only [setKey, if_pos rfl, keysNodup, Bool.and_eq_true, Bool.not_eq_true']
      exact ⟨h1, h2⟩
    · simp only [setKey, if_neg h0, keysNodup, Bool.and_eq_true, Bool.not_eq_true']
      refine ⟨?_, ih h2⟩
      rw [hasKey_setKey tl k k0 v]
      have hb : (k0 == k) = false := by simp [h0]
      simp [hb, h1]

theorem filter_ne_setKey {α : Type} (l : List (String × α)) (k : String) (v : α) :
    (setKey l k v).filter (fun e => !(e.1 == k)) = l.filter (fun e => !(e.1 == k)) := by
  induction l with
  | nil => simp [setKey, List.filter]
  | cons hd tl ih =>
    obtain ⟨k0, w⟩ := hd
    by_cases h0 : k0 = k
    · subst h0
      simp [setKey, List.filter_cons]
    · have hb : (k0 == k) = false := by simp [h0]
      simp [setKey, h0, List.filter_cons, hb, ih]

theorem filter_ne_delKey {α : Type} (l : List (String × α)) (k : String) :
    (delKey l k).filter (fun e => !(e.1 == k)) = l.filter (fun e => !(e.1 == k)) := by
  induction l with
  | nil => rfl
  | cons hd tl ih =>
    obtain ⟨k0, w⟩ := hd
    by_cases h0 : k0 = k
    · subst h0
      simp [delKey, List.filter_cons]
    · have hb : (k0 == k) = false := by simp [h0]
      simp [delKey, h0, List.filter_cons, hb, ih]

theorem removeKeys_eq_filter {amap : List (String × JVal)} (ks : List String)
    (h : keysNodup amap = true) :
    removeKeys amap ks = amap.filter (fun e => !(ks.contains e.1)) := by
  induction ks generalizing amap with
  | nil =>
    simp only [removeKeys, List.foldl_nil]
    have : ∀ e : String × JVal, (!(List.contains [] e.1)) = true := by
      intro e
      simp [List.contains]
    rw [List.filter_eq_self.mpr (fun a _ => this a)]
  | cons k ks ih =>
    have step : removeKeys amap (k :: ks) = removeKeys (delKey amap k) ks := by
      simp [removeKeys, List.foldl_cons]
    rw [step, ih (keysNodup_delKey amap k h), delKey_eq_filter amap k h,
      List.filter_filter]
    apply List.filter_congr
    intro e he
    by_cases hk : e.1 = k
    · simp [List.contains_cons, hk]
    · simp [List.contains_cons, hk, Bool.not_or, Bool.and_comm]

theorem keyContains_eq_hasKey {α : Type} (l : List (String × α)) (k : String) :
    (l.map Prod.fst).contains k = hasKey l k := by
  induction l with
  | nil => simp [List.contains, hasKey, lookupKey]
  | cons hd tl ih =>
    obtain ⟨k0, w⟩ := hd
    by_cases h0 : k0 = k
    · subst h0
      simp [List.contains_cons, hasKey, lookupKey]
    · have hb : (k == k0) = false := beq_eq_false_iff_ne.mpr (fun hh => h0 hh.symm)
      simp only [List.map_cons, List.contains_cons, hb, Bool.false_or]
      rw [ih]
      simp [hasKey, lookupKey, h0]

theorem hasKey_of_mem {α : Type} {l : List (String × α)} {e : String × α}
    (h : e ∈ l) : hasKey l e.1 = true := by
  induction l with
  | nil => simp at h
  | cons hd tl ih =>
    obtain ⟨k0, w⟩ := hd
    rcases List.mem_cons.mp h with h1 | h1
    · subst h1
      simp [hasKey, lookupKey]
    · by_cases h0 : k0 = e.1
      · simp [hasKey, lookupKey, h0]
      · simp [hasKey, lookupKey, h0]
        have := ih h1
        simpa [hasKey] using this

theorem contains_filterKeys_of_nodup {amap : List (String × JVal)}
    (p : String × JVal → Bool) {e : String × JVal} (hnd : keysNodup amap = true)
    (he : e ∈ amap) :
    ((amap.filter p).map Prod.fst).contains e.1 = p e := by
  induction amap with
  | nil => simp at he
  | cons hd tl ih =>
    obtain ⟨k0, w⟩ := hd
    simp only [keysNodup, Bool.and_eq_true, Bool.not_eq_true'] at hnd
    obtain ⟨h1, h2⟩ := hnd
    rcases List.mem_cons.mp he with h3 | h3
    · by_cases hp : p (k0, w) = true
      · rw [h3]
        simp [List.filter_cons, hp, List.contains_cons]
      · simp only [Bool.not_eq_true] at hp
        rw [h3]
        simp only [List.filter_cons, hp, Bool.false_eq_true, if_false]
        rw [keyContains_eq_hasKey]
        have h1n : lookupKey tl k0 = none := by
          cases hh : lookupKey tl k0 with
          | none => rfl
          | some u => simp [hasKey, hh] at h1
        simp [hasKey, lookupKey_filter_none tl p k0 h1n, hp]
    · have hne : (e.1 == k0) = false := by
        have hmem := hasKey_of_mem h3
        by_cases hq : e.1 = k0
        · rw [hq] at hmem
          simp [hmem] at h1
        · simp [hq]
      by_cases hp : p (k0, w) = true
      · simp only [List.filter_cons, hp, if_true, if_pos, List.map_cons,
          List.contains_cons, hne, Bool.false_or]
        exact ih h2 h3
      · simp only [Bool.not_eq_true] at hp
        simp only [List.filter_cons, hp, Bool.false_eq_true, if_false]
        exact ih h2 h3

/-! ## The truthiness test agrees with the specification's active test on
well-shaped entries -/

theorem activeTestPy_eq_specActive {v : JVal} (h : wfEntry v = true) :
    activeTestPy v = some (specActive v) := by
  cases v with
  | obj fs =>
    simp only [wfEntry] at h
    cases hnc : lookupKey fs "noteConfig" with
    | none =>
      simp [activeTestPy, specActive, hnc, truthyOpt, lookupKey]
    | some nc =>
      cases nc with
      | obj nfs =>
        rw [hnc] at h
        simp only [Bool.and_eq_true] at h
        obtain ⟨he, hd⟩ := h
        simp only [activeTestPy, specActive, hnc, Option.getD_some]
        cases hen : lookupKey nfs "enable" with
        | none => simp [hen, truthyOpt]
        | some ev =>
          cases ev with
          | bool b =>
            cases hdk : lookupKey nfs "drawViewKey" with
            | none => simp [hen, hdk, truthyOpt, pyTruthy]
            | some dv =>
              cases dv with
              | str s =>
                cases b <;> simp [hen, hdk, truthyOpt, pyTruthy]
              | null => rw [hdk] at hd; simp at hd
              | bool c => rw [hdk] at hd; simp at hd
              | num n => rw [hdk] at hd; simp at hd
              | arr vs => rw [hdk] at hd; simp at hd
              | obj ms => rw [hdk] at hd; simp at hd
          | null => rw [hen] at he; simp at he
          | num n => rw [hen] at he; simp at he
          | str s => rw [hen] at he; simp at he
          | arr vs => rw [hen] at he; simp at he
          | obj ms => rw [hen] at he; simp at he
      | null => rw [hnc] at h; simp at h
      | bool b => rw [hnc] at h; simp at h
      | num n => rw [hnc] at h; simp at h
      | str s => rw [hnc] at h; simp at h
      | arr vs => rw [hnc] at h; simp at h
  | null => simp [wfEntry] at h
  | bool b => simp [wfEntry] at h
  | num n => simp [wfEntry] at h
  | str s => simp [wfEntry] at h
  | arr vs => simp [wfEntry] at h

theorem activeKeys_eq {amap : List (String × JVal)}
    (h : ∀ e ∈ amap, wfEntry e.2 = true) :
    activeKeys amap = some ((amap.filter (fun e => specActive e.2)).map Prod.fst) := by
  induction amap with
  | nil => rfl
  | cons hd tl ih =>
    obtain ⟨k0, w⟩ := hd
    have hw : wfEntry w = true := h (k0, w) (List.mem_cons_self _ _)
    have htl : ∀ e ∈ tl, wfEntry e.2 = true := fun e he => h e (List.mem_cons_of_mem _ he)
    by_cases hs : specActive w = true
    · simp [activeKeys, activeTestPy_eq_specActive hw, hs, ih htl, List.filter_cons]
    · simp only [Bool.not_eq_true] at hs
      simp [activeKeys, activeTestPy_eq_specActive hw, hs, ih htl, List.filter_cons]

/-! ## Codec correctness: numerals -/

theorem digitChar_isDigit {d : Nat} (h : d < 10) : (Nat.digitChar d).isDigit = true := by
  interval_cases d <;> decide

theorem digitChar_toNat {d : Nat} (h : d < 10) : (Nat.digitChar d).toNat = 48 + d := by
  interval_cases d <;> decide

theorem natChars_ne_nil (n : Nat) : natChars n ≠ [] := by
  rw [natChars]
  by_cases h : n < 10 <;> simp [h]

theorem natChars_all_digits (n : Nat) : ∀ c ∈ natChars n, c.isDigit = true := by
  induction n using Nat.strong_induction_on with
  | _ n ih =>
    rw [natChars]
    by_cases h : n < 10
    · simp only [if_pos h, List.mem_singleton]
      intro c hc
      subst hc
      exact digitChar_isDigit h
    · simp only [if_neg h]
      intro c hc
      rcases List.mem_append.mp hc with hc1 | hc1
      · exact ih (n / 10) (Nat.div_lt_self (by omega) (by omega)) c hc1
      · rw [List.mem_singleton] at hc1
        subst hc1
        exact digitChar_isDigit (Nat.mod_lt n (by omega))

theorem digitsVal_natChars (n : Nat) : digitsVal (natChars n) = n := by
  induction n using Nat.strong_induction_on with
  | _ n ih =>
    rw [natChars]
    by_cases h : n < 10
    · simp only [if_pos h]
      simp [digitsVal, digitChar_toNat h]
    · simp only [if_neg h]
      have hd : (Nat.digitChar (n % 10)).toNat = 48 + n % 10 :=
        digitChar_toNat (Nat.mod_lt n (by omega))
      simp only [digitsVal, List.foldl_append, List.foldl_cons, List.foldl_nil]
      have ihv := ih (n / 10) (Nat.div_lt_self (by omega) (by omega))
      simp only [digitsVal] at ihv
      rw [ihv, hd]
      omega

/-- Characters that may legally follow a complete encoded value inside a
larger encoding: end of input, a separating comma, or a closing
bracket or brace.  None of them is a digit, so reading a numeral stops
exactly at the value boundary. -/
def followOK : List Char → Bool
  | [] => true
  | c :: _ => c == ',' || c == ']' || c == '}'

theorem takeWhile_append_all {p : Char → Bool} {xs : List Char} (ys : List Char)
    (h : ∀ c ∈ xs, p c = true) : (xs ++ ys).takeWhile p = xs ++ ys.takeWhile p := by
  induction xs with
  | nil => simp
  | cons c cs ih =>
    have hc : p c = true := h c (List.mem_cons_self _ _)
    simp only [List.cons_append, List.takeWhile_cons, hc, if_pos]
    rw [ih (fun d hd => h d (List.mem_cons_of_mem _ hd))]

theorem dropWhile_append_all {p : Char → Bool} {xs : List Char} (ys : List Char)
    (h : ∀ c ∈ xs, p c = true) : (xs ++ ys).dropWhile p = ys.dropWhile p := by
  induction xs with
  | nil => simp
  | cons c cs ih =>
    have hc : p c = true := h c (List.mem_cons_self _ _)
    simp only [List.cons_append, List.dropWhile_cons, hc, if_pos]
    exact ih (fun d hd => h d (List.mem_cons_of_mem _ hd))

theorem followOK_head_not_digit {rest : List Char} (h : followOK rest = true) :
    rest.takeWhile (fun c => c.isDigit) = [] ∧
      rest.dropWhile (fun c => c.isDigit) = rest := by
  cases rest with
  | nil => simp
  | cons c cs =>
    simp only [followOK, Bool.or_eq_true, beq_iff_eq] at h
    rcases h with (h | h) | h <;> subst h <;>
      simp [List.takeWhile_cons, List.dropWhile_cons]

theorem parseNatPart_natChars {n : Nat} {rest : List Char} (h : followOK rest = true) :
    parseNatPart (natChars n ++ rest) = some (n, rest) := by
  obtain ⟨ht, hd⟩ := followOK_head_not_digit h
  have hall : ∀ c ∈ natChars n, (fun c : Char => c.isDigit) c = true :=
    fun c hc => natChars_all_digits n c hc
  simp only [parseNatPart, takeWhile_append_all rest hall, dropWhile_append_all rest hall,
    ht, hd, List.append_nil]
  have hne : (natChars n).isEmpty = false := by
    cases hh : natChars n with
    | nil => exact absurd hh (natChars_ne_nil n)
    | cons a b => rfl
  simp [hne, digitsVal_natChars]

/-! ## Codec correctness: string literals -/

theorem parseStringBody_chars {l : List Char} {rest : List Char}
    (h : ∀ c ∈ l, okChar c = true) :
    parseStringBody (l ++ '"' :: rest) = some (⟨l⟩, rest) := by
  induction l with
  | nil => simp [parseStringBody]
  | cons c cs ih =>
    have hc : okChar c = true := h c (List.mem_cons_self _ _)
    simp only [okChar, Bool.and_eq_true, Bool.not_eq_true'] at hc
    have hq : ¬(c = '"') := by
      intro hh
      rw [hh] at hc
      simp at hc
    have hb : ¬(c = '\\') := by
      intro hh
      rw [hh] at hc
      simp at hc
    have ihh := ih (fun d hd => h d (List.mem_cons_of_mem _ hd))
    simp only [List.cons_append, parseStringBody, if_neg hq, if_neg hb]
    simp [ihh]

theorem parseStringBody_enc {s : String} {rest : List Char} (h : okName s = true) :
    parseStringBody (s.data ++ '"' :: rest) = some (s, rest) := by
  have hall : ∀ c ∈ s.data, okChar c = true := by
    simpa [okName, List.all_eq_true] using h
  rw [parseStringBody_chars hall]

/-! ## Codec correctness: leading characters and fuel bounds -/

theorem natChars_cons (n : Nat) :
    ∃ c cs, natChars n = c :: cs ∧ c.isDigit = true := by
  cases hh : natChars n with
  | nil => exact absurd hh (natChars_ne_nil n)
  | cons c cs =>
    refine ⟨c, cs, rfl, ?_⟩
    exact natChars_all_digits n c (by rw [hh]; exact List.mem_cons_self _ _)

theorem isDigit_ne {c : Char} (h : c.isDigit = true) :
    ¬(c = 'n') ∧ ¬(c = 't') ∧ ¬(c = 'f') ∧ ¬(c = '"') ∧ ¬(c = '[') ∧
      ¬(c = '{') ∧ ¬(c = '-') ∧ ¬(c = ']') ∧ ¬(c = '}') := by
  refine ⟨?_, ?_, ?_, ?_, ?_, ?_, ?_, ?_, ?_⟩ <;>
    (intro hh; rw [hh] at h; exact absurd h (by decide))

/-- Every encoding begins with a character that identifies the value's
kind; in particular it is never a closing bracket or brace. -/
theorem encChars_cons (v : JVal) :
    ∃ c cs, encChars v = c :: cs ∧ ¬(c = ']') ∧ ¬(c = '}') := by
  cases v with
  | null => exact ⟨'n', _, by rw [encChars], by decide, by decide⟩
  | bool b =>
    cases b with
    | true => exact ⟨'t', _, by rw [encChars], by decide, by decide⟩
    | false => exact ⟨'f', _, by rw [encChars], by decide, by decide⟩
  | num i =>
    by_cases hi : i < 0
    · exact ⟨'-', _, by rw [encChars, intChars, if_pos hi], by decide, by decide⟩
    · obtain ⟨c, cs, hc, hd⟩ := natChars_cons i.natAbs
      refine ⟨c, cs, ?_, (isDigit_ne hd).2.2.2.2.2.2.2.1, (isDigit_ne hd).2.2.2.2.2.2.2.2⟩
      rw [encChars, intChars, if_neg hi, hc]
  | str s => exact ⟨'"', s.data ++ ['"'], by rw [encChars, List.cons_append], by decide, by decide⟩
  | arr vs => exact ⟨'[', encArr vs ++ [']'], by rw [encChars, List.cons_append], by decide, by decide⟩
  | obj ms => exact ⟨'{', encObj ms ++ ['}'], by rw [encChars, List.cons_append], by decide, by decide⟩

theorem needJ_pos (v : JVal) : 1 ≤ needJ v := by
  cases v <;> simp [needJ]

theorem needElems_pos (vs : List JVal) : 1 ≤ needElems vs := by
  cases vs <;> simp [needElems]

theorem needMembers_pos (ms : List (String × JVal)) : 1 ≤ needMembers ms := by
  cases ms with
  | nil => simp [needMembers]
  | cons m ms =>
    obtain ⟨k, v⟩ := m
    simp [needMembers]

theorem jval_sizeOf_pos (v : JVal) : 0 < sizeOf v := by
  cases v with
  | null => simp
  | bool b => have := JVal.bool.sizeOf_spec b; omega
  | num n => have := JVal.num.sizeOf_spec n; omega
  | str s => have := JVal.str.sizeOf_spec s; omega
  | arr vs => have := JVal.arr.sizeOf_spec vs; omega
  | obj ms => have := JVal.obj.sizeOf_spec ms; omega

theorem list_sizeOf_pos {α : Type} [SizeOf α] (l : List α) : 0 < sizeOf l := by
  cases l with
  | nil => simp
  | cons a l => have := List.cons.sizeOf_spec a l; omega

theorem string_sizeOf_pos (s : String) : 0 < sizeOf s := by
  cases s with
  | mk data => have := String.mk.sizeOf_spec data; omega

theorem need_le_encLen : ∀ N : Nat,
    (∀ v : JVal, sizeOf v ≤ N → needJ v ≤ (encChars v).length + 1) ∧
    (∀ vs : List JVal, sizeOf vs ≤ N → needElems vs ≤ (encArr vs).length + 2) ∧
    (∀ ms : List (String × JVal), sizeOf ms ≤ N → needMembers ms ≤ (encObj ms).length + 2) := by
  intro N
  induction N with
  | zero =>
    refine ⟨?_, ?_, ?_⟩
    · intro v hv
      exfalso
      have := jval_sizeOf_pos v
      omega
    · intro vs hv
      exfalso
      have := list_sizeOf_pos vs
      omega
    · intro ms hm
      exfalso
      have := list_sizeOf_pos ms
      omega
  | succ N ih =>
    obtain ⟨ihP, ihQ, ihR⟩ := ih
    refine ⟨?_, ?_, ?_⟩
    · intro v hv
      cases v with
      | null => simp [needJ]
      | bool b => simp [needJ]
      | num i => simp [needJ]
      | str s => simp [needJ]
      | arr vs =>
        have hs : sizeOf vs ≤ N := by
          have := JVal.arr.sizeOf_spec vs
          omega
        have h1 := ihQ vs hs
        rw [needJ, encChars]
        simp only [List.length_cons, List.length_append, List.length_singleton]
        omega
      | obj ms =>
        have hs : sizeOf ms ≤ N := by
          have := JVal.obj.sizeOf_spec ms
          omega
        have h1 := ihR ms hs
        rw [needJ, encChars]
        simp only [List.length_cons, List.length_append, List.length_singleton]
        omega
    · intro vs hv
      cases vs with
      | nil => simp [needElems, encArr]
      | cons v vs =>
        have hsv : sizeOf v ≤ N := by
          have h5 : sizeOf (v :: vs) = 1 + sizeOf v + sizeOf vs := List.cons.sizeOf_spec v vs
          have hp := list_sizeOf_pos vs
          omega
        have hsvs : sizeOf vs ≤ N := by
          have h5 : sizeOf (v :: vs) = 1 + sizeOf v + sizeOf vs := List.cons.sizeOf_spec v vs
          have hp := jval_sizeOf_pos v
          omega
        have h1 := ihP v hsv
        have h2 := ihQ vs hsvs
        cases vs with
        | nil =>
          rw [needElems, encArr]
          have := needElems_pos ([] : List JVal)
          simp only [needElems] at h2 ⊢
          omega
        | cons w ws =>
          rw [needElems, encArr]
          simp only [List.length_append, List.length_cons]
          have h3 : max (needJ v) (needElems (w :: ws)) ≤
              (encChars v).length + (encArr (w :: ws)).length + 2 :=
            max_le (by omega) (by omega)
          omega
          simp
    · intro ms hm
      cases ms with
      | nil => simp [needMembers, encObj]
      | cons m ms =>
        obtain ⟨k, v⟩ := m
        have hsv : sizeOf v ≤ N := by
          have h5 : sizeOf ((k, v) :: ms) = 1 + sizeOf (k, v) + sizeOf ms :=
            List.cons.sizeOf_spec (k, v) ms
          have h6 : sizeOf (k, v) = 1 + sizeOf k + sizeOf v := Prod.mk.sizeOf_spec k v
          have hp := list_sizeOf_pos ms
          have hk := string_sizeOf_pos k
          omega
        have hsms : sizeOf ms ≤ N := by
          have h5 : sizeOf ((k, v) :: ms) = 1 + sizeOf (k, v) + sizeOf ms :=
            List.cons.sizeOf_spec (k, v) ms
          have h6 : sizeOf (k, v) = 1 + sizeOf k + sizeOf v := Prod.mk.sizeOf_spec k v
          have hp := jval_sizeOf_pos v
          have hk := string_sizeOf_pos k
          omega
        have h1 := ihP v hsv
        have h2 := ihR ms hsms
        cases ms with
        | nil =>
          rw [needMembers, encObj]
          simp only [List.length_cons, List.length_append, needMembers] at h2 ⊢
          omega
        | cons m2 ms2 =>
          obtain ⟨k2, v2⟩ := m2
          rw [needMembers, encObj]
          simp only [List.length_cons, List.length_append]
          have h3 : max (needJ v) (needMembers ((k2, v2) :: ms2)) ≤
              (encChars v).length + (encObj ((k2, v2) :: ms2)).length + 3 :=
            max_le (by omega) (by omega)
          omega
          simp

/-! ## Codec correctness: the reader inverts the serializer -/

theorem parse_encChars : ∀ fuel : Nat,
    (∀ (v : JVal) (rest : List Char), wfJ v = true → followOK rest = true →
      needJ v ≤ fuel → parseVal fuel (encChars v ++ rest) = some (v, rest)) ∧
    (∀ (vs : List JVal) (rest : List Char), wfArr vs = true →
      needElems vs ≤ fuel → parseElems fuel (encArr vs ++ ']' :: rest) = some (vs, rest)) ∧
    (∀ (ms : List (String × JVal)) (rest : List Char), wfObj ms = true →
      needMembers ms ≤ fuel → parseMembers fuel (encObj ms ++ '}' :: rest) = some (ms, rest)) := by
  intro fuel
  induction fuel with
  | zero =>
    refine ⟨?_, ?_, ?_⟩
    · intro v rest _ _ hn
      exact absurd hn (by have := needJ_pos v; omega)
    · intro vs rest _ hn
      exact absurd hn (by have := needElems_pos vs; omega)
    · intro ms rest _ hn
      exact absurd hn (by have := needMembers_pos ms; omega)
  | succ fuel ih =>
    obtain ⟨ihP, ihQ, ihR⟩ := ih
    refine ⟨?_, ?_, ?_⟩
    · intro v rest hwf hfo hn
      cases v with
      | null =>
        rw [encChars]
        simp [parseVal]
      | bool b =>
        cases b <;> (rw [encChars]; simp [parseVal])
      | num i =>
        by_cases hi : i < 0
        · have hval : (-(↑(i.natAbs) : Int)) = i := by omega
          rw [encChars, intChars, if_pos hi]
          simp only [List.cons_append]
          simp [parseVal, parseNatPart_natChars hfo, hval]
          simp [abs_of_neg hi]
        · obtain ⟨c, cs, hc, hd⟩ := natChars_cons i.natAbs
          obtain ⟨hn1, hn2, hn3, hn4, hn5, hn6, hn7, _, _⟩ := isDigit_ne hd
          rw [encChars, intChars, if_neg hi, hc]
          simp only [List.cons_append]
          have hin : c :: (cs ++ rest) = natChars i.natAbs ++ rest := by
            rw [hc, List.cons_append]
          have hval : ((↑(i.natAbs) : Int)) = i := by omega
          simp only [parseVal, if_neg hn1, if_neg hn2, if_neg hn3, if_neg hn4,
            if_neg hn5, if_neg hn6, if_neg hn7, hd, if_pos]
          rw [hin, parseNatPart_natChars hfo]
          simp [hval]
      | str s =>
        rw [wfJ] at hwf
        rw [encChars]
        simp only [List.cons_append, List.append_assoc, List.singleton_append]
        simp [parseVal, parseStringBody_enc hwf]
      | arr vs =>
        rw [wfJ] at hwf
        rw [needJ] at hn
        rw [encChars]
        simp only [List.cons_append, List.append_assoc, List.singleton_append]
        simp [parseVal, ihQ vs rest hwf (by omega)]
      | obj ms =>
        rw [wfJ] at hwf
        simp only [Bool.and_eq_true] at hwf
        rw [needJ] at hn
        rw [encChars]
        simp only [List.cons_append, List.append_assoc, List.singleton_append]
        simp [parseVal, ihR ms rest hwf.2 (by omega)]
    · intro vs rest hwf hn
      cases vs with
      | nil =>
        rw [encArr]
        simp [parseElems]
      | cons v vs =>
        obtain ⟨c, cs, hc, hcr, hcb⟩ := encChars_cons v
        cases vs with
        | nil =>
          rw [encArr]
          rw [wfArr] at hwf
          rw [needElems] at hn
          have hwfv : wfJ v = true := by
            simp only [Bool.and_eq_true] at hwf
            exact hwf.1
          have hnv : needJ v ≤ fuel := by
            have := le_max_left (needJ v) (needElems ([] : List JVal))
            omega
          have hhead : (encChars v ++ ']' :: rest).head? = some c := by
            rw [hc]
            rfl
          have hpv := ihP v (']' :: rest) hwfv rfl hnv
          simp only [parseElems, hhead]
          rw [if_neg (by simp [hcr])]
          rw [hpv]
          rfl
        | cons w ws =>
          rw [encArr]
          rw [wfArr] at hwf
          rw [needElems] at hn
          simp only [Bool.and_eq_true] at hwf
          have hnv : needJ v ≤ fuel := by
            have := le_max_left (needJ v) (needElems (w :: ws))
            omega
          have hnws : needElems (w :: ws) ≤ fuel := by
            have := le_max_right (needJ v) (needElems (w :: ws))
            omega
          simp only [List.append_assoc, List.cons_append]
          have hhead : (encChars v ++ ',' :: (encArr (w :: ws) ++ ']' :: rest)).head? = some c := by
            rw [hc]
            rfl
          have hpv := ihP v (',' :: (encArr (w :: ws) ++ ']' :: rest)) hwf.1 rfl hnv
          have hq := ihQ (w :: ws) rest hwf.2 hnws
          simp only [parseElems, hhead]
          rw [if_neg (by simp [hcr])]
          rw [hpv]
          simp [hq]
          simp
    · intro ms rest hwf hn
      cases ms with
      | nil =>
        rw [encObj]
        simp [parseMembers]
      | cons m ms =>
        obtain ⟨k, v⟩ := m
        cases ms with
        | nil =>
          rw [encObj]
          rw [wfObj] at hwf
          rw [needMembers] at hn
          simp only [Bool.and_eq_true] at hwf
          obtain ⟨⟨hk, hv⟩, _⟩ := hwf
          have hnv : needJ v ≤ fuel := by
            have := le_max_left (needJ v) (needMembers ([] : List (String × JVal)))
            omega
          simp only [List.cons_append, List.append_assoc, List.singleton_append]
          have hpv := ihP v ('}' :: rest) hv rfl hnv
          simp [parseMembers, parseStringBody_enc hk, hpv]
        | cons m2 ms2 =>
          rw [encObj]
          rw [wfObj] at hwf
          rw [needMembers] at hn
          simp only [Bool.and_eq_true] at hwf
          obtain ⟨⟨hk, hv⟩, hrest⟩ := hwf
          have hnv : needJ v ≤ fuel := by
            have := le_max_left (needJ v) (needMembers (m2 :: ms2))
            omega
          have hnms : needMembers (m2 :: ms2) ≤ fuel := by
            have := le_max_right (needJ v) (needMembers (m2 :: ms2))
            omega
          simp only [List.cons_append, List.append_assoc, List.singleton_append]
          have hpv := ihP v (',' :: (encObj (m2 :: ms2) ++ '}' :: rest)) hv rfl hnv
          have hr := ihR (m2 :: ms2) rest hrest hnms
          simp [parseMembers, parseStringBody_enc hk, hpv, hr]
          simp

/-- Round trip of the codec on well-formed documents: reading back an
encoded record returns the record. -/
theorem jsonDecode_jsonEncode {v : JVal} (h : wfJ v = true) :
    jsonDecode (jsonEncode v) = some v := by
  have hneed : needJ v ≤ (encChars v).length + 1 :=
    (need_le_encLen (sizeOf v)).1 v (le_refl _)
  have hp := (parse_encChars ((encChars v).length + 1)).1 v [] h rfl hneed
  rw [List.append_nil] at hp
  have hdata : (jsonEncode v).data = encChars v := rfl
  have hlen : (jsonEncode v).length = (encChars v).length := rfl
  rw [jsonDecode, hlen, hdata, hp]

/-! ## Compactness: the serializer emits no whitespace outside string
content -/

/-- A string with no space character. -/
def strNoSpace (s : String) : Bool :=
  s.data.all (fun c => !(c == ' '))

mutual

/-- No string or key anywhere in the document contains a space. -/
def jNoSpace : JVal → Bool
  | JVal.str s => strNoSpace s
  | JVal.arr vs => arrNoSpace vs
  | JVal.obj ms => objNoSpace ms
  | _ => true

/-- Space-free strings throughout a list of elements. -/
def arrNoSpace : List JVal → Bool
  | [] => true
  | v :: vs => jNoSpace v && arrNoSpace vs

/-- Space-free strings throughout a member list. -/
def objNoSpace : List (String × JVal) → Bool
  | [] => true
  | (k, v) :: ms => strNoSpace k && jNoSpace v && objNoSpace ms

end

theorem isDigit_not_ws {c : Char} (h : c.isDigit = true) : c.isWhitespace = false := by
  by_contra hw
  rw [Bool.not_eq_false] at hw
  simp only [Char.isWhitespace, Bool.or_eq_true, decide_eq_true_eq] at hw
  rcases hw with ((h1 | h1) | h1) | h1 <;> (subst h1; exact absurd h (by decide))

theorem okChar_not_ws {c : Char} (hok : okChar c = true) (hsp : (c == ' ') = false) :
    c.isWhitespace = false := by
  by_contra hw
  rw [Bool.not_eq_false] at hw
  simp only [Char.isWhitespace, Bool.or_eq_true, decide_eq_true_eq] at hw
  rcases hw with ((h1 | h1) | h1) | h1
  · subst h1
    simp at hsp
  · subst h1
    exact absurd hok (by decide)
  · subst h1
    exact absurd hok (by decide)
  · subst h1
    exact absurd hok (by decide)

theorem natChars_no_ws (n : Nat) :
    (natChars n).all (fun c => !c.isWhitespace) = true := by
  rw [List.all_eq_true]
  intro c hc
  simp [isDigit_not_ws (natChars_all_digits n c hc)]

theorem enc_no_space : ∀ N : Nat,
    (∀ v : JVal, sizeOf v ≤ N → wfJ v = true → jNoSpace v = true →
      (encChars v).all (fun c => !c.isWhitespace) = true) ∧
    (∀ vs : List JVal, sizeOf vs ≤ N → wfArr vs = true → arrNoSpace vs = true →
      (encArr vs).all (fun c => !c.isWhitespace) = true) ∧
    (∀ ms : List (String × JVal), sizeOf ms ≤ N → wfObj ms = true → objNoSpace ms = true →
      (encObj ms).all (fun c => !c.isWhitespace) = true) := by
  intro N
  induction N with
  | zero =>
    refine ⟨?_, ?_, ?_⟩
    · intro v hv
      exfalso
      have := jval_sizeOf_pos v
      omega
    · intro vs hv
      exfalso
      have := list_sizeOf_pos vs
      omega
    · intro ms hm
      exfalso
      have := list_sizeOf_pos ms
      omega
  | succ N ih =>
    obtain ⟨ihP, ihQ, ihR⟩ := ih
    refine ⟨?_, ?_, ?_⟩
    · intro v hv hwf hns
      cases v with
      | null => decide
      | bool b => cases b <;> decide
      | num i =>
        rw [encChars, intChars]
        by_cases hi : i < 0
        · rw [if_pos hi]
          simp [natChars_no_ws]
        · rw [if_neg hi]
          exact natChars_no_ws i.natAbs
      | str s =>
        rw [wfJ] at hwf
        rw [jNoSpace, strNoSpace] at hns
        rw [okName, List.all_eq_true] at hwf
        rw [List.all_eq_true] at hns
        rw [encChars, List.all_eq_true]
        intro c hc
        rcases List.mem_append.mp hc with h1 | h1
        · rcases List.mem_cons.mp h1 with h2 | h2
          · subst h2
            decide
          · have hw := okChar_not_ws (hwf c h2) (by simpa using hns c h2)
            simp [hw]
        · rw [List.mem_singleton] at h1
          subst h1
          decide
      | arr vs =>
        have hs : sizeOf vs ≤ N := by
          have := JVal.arr.sizeOf_spec vs
          omega
        rw [wfJ] at hwf
        rw [jNoSpace] at hns
        rw [encChars]
        simp only [List.all_cons, List.all_append]
        simp [ihQ vs hs hwf hns]
      | obj ms =>
        have hs : sizeOf ms ≤ N := by
          have := JVal.obj.sizeOf_spec ms
          omega
        rw [wfJ] at hwf
        simp only [Bool.and_eq_true] at hwf
        rw [jNoSpace] at hns
        rw [encChars]
        simp only [List.all_cons, List.all_append]
        simp [ihR ms hs hwf.2 hns]
    · intro vs hv hwf hns
      cases vs with
      | nil => decide
      | cons v vs =>
        have hsv : sizeOf v ≤ N := by
          have h5 : sizeOf (v :: vs) = 1 + sizeOf v + sizeOf vs := List.cons.sizeOf_spec v vs
          have := list_sizeOf_pos vs
          omega
        have hsvs : sizeOf vs ≤ N := by
          have h5 : sizeOf (v :: vs) = 1 + sizeOf v + sizeOf vs := List.cons.sizeOf_spec v vs
          have := jval_sizeOf_pos v
          omega
        rw [wfArr] at hwf
        rw [arrNoSpace] at hns
        simp only [Bool.and_eq_true] at hwf hns
        cases vs with
        | nil =>
          rw [encArr]
          exact ihP v hsv hwf.1 hns.1
        | cons w ws =>
          rw [encArr]
          simp only [List.all_append, List.all_cons]
          simp [ihP v hsv hwf.1 hns.1, ihQ (w :: ws) hsvs hwf.2 hns.2]
          simp
    · intro ms hm hwf hns
      cases ms with
      | nil => decide
      | cons m ms =>
        obtain ⟨k, v⟩ := m
        have hsv : sizeOf v ≤ N := by
          have h5 : sizeOf ((k, v) :: ms) = 1 + sizeOf (k, v) + sizeOf ms :=
            List.cons.sizeOf_spec (k, v) ms
          have h6 : sizeOf (k, v) = 1 + sizeOf k + sizeOf v := Prod.mk.sizeOf_spec k v
          have := list_sizeOf_pos ms
          have := string_sizeOf_pos k
          omega
        have hsms : sizeOf ms ≤ N := by
          have h5 : sizeOf ((k, v) :: ms) = 1 + sizeOf (k, v) + sizeOf ms :=
            List.cons.sizeOf_spec (k, v) ms
          have h6 : sizeOf (k, v) = 1 + sizeOf k + sizeOf v := Prod.mk.sizeOf_spec k v
          have := jval_sizeOf_pos v
          have := string_sizeOf_pos k
          omega
        rw [wfObj] at hwf
        rw [objNoSpace] at hns
        simp only [Bool.and_eq_true] at hwf hns
        obtain ⟨⟨hk, hv⟩, hms⟩ := hwf
        obtain ⟨⟨hk2, hv2⟩, hms2⟩ := hns
        have hkchars : k.data.all (fun c => !c.isWhitespace) = true := by
          rw [List.all_eq_true]
          intro c hc
          rw [okName, List.all_eq_true] at hk
          rw [strNoSpace, List.all_eq_true] at hk2
          have hw := okChar_not_ws (hk c hc) (by simpa using hk2 c hc)
          simp [hw]
        cases ms with
        | nil =>
          rw [encObj]
          simp only [List.all_cons, List.all_append]
          simp [hkchars, ihP v hsv hv hv2]
        | cons m2 ms2 =>
          rw [encObj]
          simp only [List.all_cons, List.all_append]
          simp [hkchars, ihP v hsv hv hv2, ihR (m2 :: ms2) hsms hms hms2]
          simp

/-! ## Store lemmas -/

theorem OnyxStore.get_set_self (s : OnyxStore) (k v : String) :
    (s.set k v).get k = some v :=
  lookupKey_setKey_self s.entries k v

theorem OnyxStore.get_set_ne (s : OnyxStore) (k k' v : String) (h : k' ≠ k) :
    (s.set k v).get k' = s.get k' :=
  lookupKey_setKey_ne s.entries k k' v h

/-! ## Well-formedness is preserved by the record mutations -/

theorem wfObj_setKey {ms : List (String × JVal)} {k : String} {v : JVal}
    (hms : wfObj ms = true) (hk : okName k = true) (hv : wfJ v = true) :
    wfObj (setKey ms k v) = true := by
  induction ms with
  | nil => simp [setKey, wfObj, hk, hv]
  | cons m ms ih =>
    obtain ⟨k0, w⟩ := m
    rw [wfObj] at hms
    simp only [Bool.and_eq_true] at hms
    obtain ⟨⟨hk0, hw⟩, hms⟩ := hms
    by_cases h0 : k0 = k
    · subst h0
      simp [setKey, wfObj, hk0, hv, hms]
    · simp [setKey, h0, wfObj, hk0, hw, ih hms]

theorem wfJ_obj_setKey {ms : List (String × JVal)} {k : String} {v : JVal}
    (hms : wfJ (JVal.obj ms) = true) (hk : okName k = true) (hv : wfJ v = true) :
    wfJ (JVal.obj (setKey ms k v)) = true := by
  rw [wfJ] at hms ⊢
  simp only [Bool.and_eq_true] at hms ⊢
  exact ⟨keysNodup_setKey ms k v hms.1, wfObj_setKey hms.2 hk hv⟩

theorem wfJ_create {dvk act : String} (h1 : okName dvk = true) (h2 : okName act = true) :
    wfJ (create_activity_config dvk act) = true := by
  simp [create_activity_config, wfJ, wfObj, wfArr, keysNodup, hasKey, lookupKey, h1, h2]
  decide

/-! ## Unfolding the enable operation under its success hypotheses -/

theorem truthyOpt_obj {fields : List (String × JVal)} (hne : fields ≠ []) :
    truthyOpt (some (JVal.obj fields)) = true := by
  cases fields with
  | nil => exact absurd rfl hne
  | cons f fs => rfl

theorem enable_eq_of_absent (s : OnyxStore) (pkg dvk act : String)
    (fields : List (String × JVal))
    (hget : get_app_config s pkg = some (JVal.obj fields))
    (hne : fields ≠ [])
    (hacm : lookupKey fields "activityConfigMap" = none) :
    enable_handwriting s pkg dvk act =
      some (true, s.set ("eac_app_" ++ pkg) (jsonEncode (JVal.obj
        (setKey (setKey fields "activityConfigMap" (JVal.obj []))
          "activityConfigMap"
          (JVal.obj [(act, create_activity_config dvk act)]))))) := by
  have htr := truthyOpt_obj hne
  simp only [enable_handwriting, hget, htr, Bool.true_eq_false, if_false, hasKey, hacm,
    Option.isSome_none, Bool.false_eq_true, if_false, lookupKey_setKey_self,
    set_app_config, setKey]

theorem enable_eq_of_present (s : OnyxStore) (pkg dvk act : String)
    (fields amap : List (String × JVal))
    (hget : get_app_config s pkg = some (JVal.obj fields))
    (hne : fields ≠ [])
    (hacm : lookupKey fields "activityConfigMap" = some (JVal.obj amap)) :
    enable_handwriting s pkg dvk act =
      some (true, s.set ("eac_app_" ++ pkg) (jsonEncode (JVal.obj
        (setKey fields "activityConfigMap"
          (JVal.obj (setKey amap act (create_activity_config dvk act))))))) := by
  have htr := truthyOpt_obj hne
  simp only [enable_handwriting, hget, htr, Bool.true_eq_false, if_false, hasKey, hacm,
    Option.isSome_some, if_true, set_app_config]

/-! ## Unfolding the disable operation under explicit hypotheses -/

theorem disable_eq_falsyMap (s : OnyxStore) (pkg : String) (act : Option String)
    (fields : List (String × JVal))
    (hget : get_app_config s pkg = some (JVal.obj fields))
    (hne : fields ≠ [])
    (hfalsy : pyTruthy ((lookupKey fields "activityConfigMap").getD (JVal.obj [])) = false) :
    disable_handwriting s pkg act = some (true, s) := by
  have htr := truthyOpt_obj hne
  simp only [disable_handwriting, hget, htr, Bool.true_eq_false, if_false, hfalsy, if_true]

theorem disable_eq_of_act_present (s : OnyxStore) (pkg act : String)
    (fields amap : List (String × JVal))
    (hget : get_app_config s pkg = some (JVal.obj fields))
    (hne : fields ≠ [])
    (hacm : lookupKey fields "activityConfigMap" = some (JVal.obj amap))
    (hamapne : amap ≠ [])
    (hhas : hasKey amap act = true) :
    disable_handwriting s pkg (some act) =
      some (true, s.set ("eac_app_" ++ pkg) (jsonEncode (JVal.obj
        (setKey fields "activityConfigMap" (JVal.obj (delKey amap act)))))) := by
  have htr := truthyOpt_obj hne
  have hpt : pyTruthy (JVal.obj amap) = true := by
    cases amap with
    | nil => exact absurd rfl hamapne
    | cons a l => rfl
  simp only [disable_handwriting, hget, htr, Bool.true_eq_false, if_false, hacm,
    Option.getD_some, hpt, hhas, if_true, set_app_config]

theorem disable_eq_of_act_missing (s : OnyxStore) (pkg act : String)
    (fields amap : List (String × JVal))
    (hget : get_app_config s pkg = some (JVal.obj fields))
    (hne : fields ≠ [])
    (hacm : lookupKey fields "activityConfigMap" = some (JVal.obj amap))
    (hamapne : amap ≠ [])
    (hhas : hasKey amap act = false) :
    disable_handwriting s pkg (some act) = some (false, s) := by
  have htr := truthyOpt_obj hne
  have hpt : pyTruthy (JVal.obj amap) = true := by
    cases amap with
    | nil => exact absurd rfl hamapne
    | cons a l => rfl
  simp only [disable_handwriting, hget, htr, Bool.true_eq_false, if_false, hacm,
    Option.getD_some, hpt, hhas, Bool.false_eq_true, if_false]

theorem disable_eq_removeAll (s : OnyxStore) (pkg : String)
    (fields amap : List (String × JVal)) (ks : List String)
    (hget : get_app_config s pkg = some (JVal.obj fields))
    (hne : fields ≠ [])
    (hacm : lookupKey fields "activityConfigMap" = some (JVal.obj amap))
    (hamapne : amap ≠ [])
    (hks : activeKeys amap = some ks) :
    disable_handwriting s pkg none =
      some (true, s.set ("eac_app_" ++ pkg) (jsonEncode (JVal.obj
        (setKey fields "activityConfigMap" (JVal.obj (removeKeys amap ks)))))) := by
  have htr := truthyOpt_obj hne
  have hpt : pyTruthy (JVal.obj amap) = true := by
    cases amap with
    | nil => exact absurd rfl hamapne
    | cons a l => rfl
  simp only [disable_handwriting, hget, htr, Bool.true_eq_false, if_false, hacm,
    Option.getD_some, hpt, hks, if_true, set_app_config]

/-! ## Further supporting lemmas for the claims -/

theorem filter_nil_of_not_hasKey {α : Type} (l : List (String × α)) (k : String)
    (h : hasKey l k = false) : l.filter (fun e => e.1 == k) = [] := by
  induction l with
  | nil => rfl
  | cons hd tl ih =>
    obtain ⟨k0, w⟩ := hd
    simp only [hasKey, lookupKey] at h
    by_cases h0 : k0 = k
    · simp [h0] at h
    · have hb : (k0 == k) = false := by simp [h0]
      simp only [if_neg h0] at h
      simp [List.filter_cons, hb, ih (by simpa [hasKey] using h)]

theorem filter_eq_setKey_self {α : Type} (l : List (String × α)) (k : String) (v : α)
    (h : keysNodup l = true) :
    (setKey l k v).filter (fun e => e.1 == k) = [(k, v)] := by
  induction l with
  | nil => simp [setKey, List.filter]
  | cons hd tl ih =>
    obtain ⟨k0, w⟩ := hd
    simp only [keysNodup, Bool.and_eq_true, Bool.not_eq_true'] at h
    obtain ⟨h1, h2⟩ := h
    by_cases h0 : k0 = k
    · subst h0
      simp only [setKey, if_pos rfl, List.filter_cons]
      simp [filter_nil_of_not_hasKey tl k0 h1]
    · have hb : (k0 == k) = false := by simp [h0]
      simp [setKey, h0, List.filter_cons, hb, ih h2]

theorem map_fst_setKey_of_hasKey {α : Type} (l : List (String × α)) (k : String) (v : α)
    (h : hasKey l k = true) : (setKey l k v).map Prod.fst = l.map Prod.fst := by
  induction l with
  | nil => simp [hasKey, lookupKey] at h
  | cons hd tl ih =>
    obtain ⟨k0, w⟩ := hd
    simp only [hasKey, lookupKey] at h
    by_cases h0 : k0 = k
    · subst h0
      simp [setKey]
    · simp only [if_neg h0] at h
      simp [setKey, h0, ih (by simpa [hasKey] using h)]

theorem wfObj_filter {l : List (String × JVal)} (p : String × JVal → Bool)
    (h : wfObj l = true) : wfObj (l.filter p) = true := by
  induction l with
  | nil => rfl
  | cons hd tl ih =>
    obtain ⟨k0, w⟩ := hd
    rw [wfObj] at h
    simp only [Bool.and_eq_true] at h
    obtain ⟨⟨hk, hw⟩, htl⟩ := h
    by_cases hp : p (k0, w) = true
    · simp only [List.filter_cons, hp, if_pos rfl]
      simp [wfObj, hk, hw, ih htl]
    · simp only [Bool.not_eq_true] at hp
      simp only [List.filter_cons, hp, Bool.false_eq_true, if_false]
      exact ih htl

theorem wfJ_of_lookup {fields : List (String × JVal)} {k : String} {v : JVal}
    (h : wfObj fields = true) (hl : lookupKey fields k = some v) : wfJ v = true := by
  induction fields with
  | nil => simp [lookupKey] at hl
  | cons hd tl ih =>
    obtain ⟨k0, w⟩ := hd
    rw [wfObj] at h
    simp only [Bool.and_eq_true] at h
    obtain ⟨⟨hk, hw⟩, htl⟩ := h
    simp only [lookupKey] at hl
    by_cases h0 : k0 = k
    · simp only [if_pos h0] at hl
      rw [← Option.some_inj.mp hl]
      exact hw
    · simp only [if_neg h0] at hl
      exact ih htl hl

theorem get_app_config_set (s : OnyxStore) (pkg : String) (v : JVal)
    (hwf : wfJ v = true) :
    get_app_config (s.set ("eac_app_" ++ pkg) (jsonEncode v)) pkg = some v := by
  simp [get_app_config, OnyxStore.get_set_self, jsonDecode_jsonEncode hwf]

theorem get_app_config_isSome {s : OnyxStore} {pkg : String} {v : JVal}
    (h : get_app_config s pkg = some v) :
    ∃ raw, s.get ("eac_app_" ++ pkg) = some raw ∧ jsonDecode raw = some v := by
  rw [get_app_config] at h
  cases hg : s.get ("eac_app_" ++ pkg) with
  | none => rw [hg] at h; exact absurd h (by simp)
  | some raw => rw [hg] at h; exact ⟨raw, rfl, h⟩

/-! ## Claim-level definitions and the general enable lemma -/

/-- Field lookup on a JSON document, `none` on non-objects; used to state
claims about stored records. -/
def objLookup (v : JVal) (k : String) : Option JVal :=
  match v with
  | JVal.obj fs => lookupKey fs k
  | _ => none

/-- An application record the mutation paths handle without raising: a
non-empty well-formed document whose `activityConfigMap` field, when
present, is itself a mapping. -/
def wfRecord (fields : List (String × JVal)) : Bool :=
  !fields.isEmpty && wfJ (JVal.obj fields) &&
  (match lookupKey fields "activityConfigMap" with
   | none => true
   | some (JVal.obj _) => true
   | some _ => false)

theorem wfRecord_spec {fields : List (String × JVal)} (h : wfRecord fields = true) :
    fields ≠ [] ∧ wfJ (JVal.obj fields) = true ∧
      (lookupKey fields "activityConfigMap" = none ∨
        ∃ amap, lookupKey fields "activityConfigMap" = some (JVal.obj amap)) := by
  rw [wfRecord] at h
  simp only [Bool.and_eq_true] at h
  obtain ⟨⟨h1, h2⟩, h3⟩ := h
  refine ⟨?_, h2, ?_⟩
  · intro hh
    subst hh
    simp at h1
  · cases hl : lookupKey fields "activityConfigMap" with
    | none => exact Or.inl rfl
    | some v =>
      cases v with
      | obj amap => exact Or.inr ⟨amap, rfl⟩
      | null => rw [hl] at h3; simp at h3
      | bool b => rw [hl] at h3; simp at h3
      | num n => rw [hl] at h3; simp at h3
      | str st => rw [hl] at h3; simp at h3
      | arr vs => rw [hl] at h3; simp at h3

theorem setKey_ne_nil {α : Type} (l : List (String × α)) (k : String) (v : α) :
    setKey l k v ≠ [] := by
  cases l with
  | nil => simp [setKey]
  | cons hd tl =>
    obtain ⟨k0, w⟩ := hd
    by_cases h0 : k0 = k <;> simp [setKey, h0]

/-- Enable on a record the code handles: the operation succeeds, writes
exactly one record, installs the built configuration under the activity
name as the map's only entry for that name, and leaves every other
record field verbatim.  The resulting fields again satisfy `wfRecord`,
so a second enable can be chained. -/
theorem enable_success_general (s : OnyxStore) (pkg dvk act : String)
    (fields : List (String × JVal))
    (hget : get_app_config s pkg = some (JVal.obj fields))
    (hwr : wfRecord fields = true)
    (hdvk : okName dvk = true) (hact : okName act = true) :
    ∃ fields2 amap2,
      enable_handwriting s pkg dvk act =
        some (true, s.set ("eac_app_" ++ pkg) (jsonEncode (JVal.obj fields2))) ∧
      wfJ (JVal.obj fields2) = true ∧
      wfRecord fields2 = true ∧
      lookupKey fields2 "activityConfigMap" = some (JVal.obj amap2) ∧
      keysNodup amap2 = true ∧
      lookupKey amap2 act = some (create_activity_config dvk act) ∧
      amap2.filter (fun e => e.1 == act) = [(act, create_activity_config dvk act)] ∧
      fields2.filter (fun e => !(e.1 == "activityConfigMap")) =
        fields.filter (fun e => !(e.1 == "activityConfigMap")) := by
  obtain ⟨hne, hwf, hshape⟩ := wfRecord_spec hwr
  have hokacm : okName "activityConfigMap" = true := by decide
  have hwfcfg : wfJ (create_activity_config dvk act) = true := wfJ_create hdvk hact
  rcases hshape with hacm | ⟨amap, hacm⟩
  · refine ⟨setKey (setKey fields "activityConfigMap" (JVal.obj []))
        "activityConfigMap" (JVal.obj [(act, create_activity_config dvk act)]),
      [(act, create_activity_config dvk act)],
      enable_eq_of_absent s pkg dvk act fields hget hne hacm, ?_, ?_, ?_, ?_, ?_, ?_, ?_⟩
    · have hempty : wfJ (JVal.obj []) = true := by
        simp [wfJ, wfObj, keysNodup]
      have hsingle : wfJ (JVal.obj [(act, create_activity_config dvk act)]) = true := by
        rw [wfJ]
        simp [wfObj, keysNodup, hasKey, lookupKey, hact, hwfcfg]
      exact wfJ_obj_setKey (wfJ_obj_setKey hwf hokacm hempty) hokacm hsingle
    · rw [wfRecord]
      have hempty : wfJ (JVal.obj []) = true := by
        simp [wfJ, wfObj, keysNodup]
      have hsingle : wfJ (JVal.obj [(act, create_activity_config dvk act)]) = true := by
        rw [wfJ]
        simp [wfObj, keysNodup, hasKey, lookupKey, hact, hwfcfg]
      have hwf2 := wfJ_obj_setKey (wfJ_obj_setKey hwf hokacm hempty) hokacm hsingle
      have hnn := setKey_ne_nil (setKey fields "activityConfigMap" (JVal.obj []))
        "activityConfigMap" (JVal.obj [(act, create_activity_config dvk act)])
      have hie : (setKey (setKey fields "activityConfigMap" (JVal.obj []))
          "activityConfigMap" (JVal.obj [(act, create_activity_config dvk act)])).isEmpty = false := by
        cases hh : setKey (setKey fields "activityConfigMap" (JVal.obj []))
            "activityConfigMap" (JVal.obj [(act, create_activity_config dvk act)]) with
        | nil => exact absurd hh hnn
        | cons a l => rfl
      simp [hie, hwf2, lookupKey_setKey_self]
    · exact lookupKey_setKey_self _ _ _
    · simp [keysNodup, hasKey, lookupKey]
    · simp [lookupKey]
    · simp [List.filter]
    · rw [filter_ne_setKey, filter_ne_setKey]
  · refine ⟨setKey fields "activityConfigMap"
        (JVal.obj (setKey amap act (create_activity_config dvk act))),
      setKey amap act (create_activity_config dvk act),
      enable_eq_of_present s pkg dvk act fields amap hget hne hacm, ?_, ?_, ?_, ?_, ?_, ?_, ?_⟩
    · have hwfamap : wfJ (JVal.obj amap) = true := by
        rw [wfJ] at hwf
        simp only [Bool.and_eq_true] at hwf
        exact wfJ_of_lookup hwf.2 hacm
      exact wfJ_obj_setKey hwf hokacm (wfJ_obj_setKey hwfamap hact hwfcfg)
    · rw [wfRecord]
      have hwfamap : wfJ (JVal.obj amap) = true := by
        rw [wfJ] at hwf
        simp only [Bool.and_eq_true] at hwf
        exact wfJ_of_lookup hwf.2 hacm
      have hwf2 := wfJ_obj_setKey hwf hokacm (wfJ_obj_setKey hwfamap hact hwfcfg)
      have hnn := setKey_ne_nil fields "activityConfigMap"
        (JVal.obj (setKey amap act (create_activity_config dvk act)))
      have hie : (setKey fields "activityConfigMap"
          (JVal.obj (setKey amap act (create_activity_config dvk act)))).isEmpty = false := by
        cases hh : setKey fields "activityConfigMap"
            (JVal.obj (setKey amap act (create_activity_config dvk act))) with
        | nil => exact absurd hh hnn
        | cons a l => rfl
      simp [hie, hwf2, lookupKey_setKey_self]
    · exact lookupKey_setKey_self _ _ _
    · have hwfamap : wfJ (JVal.obj amap) = true := by
        rw [wfJ] at hwf
        simp only [Bool.and_eq_true] at hwf
        exact wfJ_of_lookup hwf.2 hacm
      rw [wfJ] at hwfamap
      simp only [Bool.and_eq_true] at hwfamap
      exact keysNodup_setKey amap act _ hwfamap.1
    · exact lookupKey_setKey_self _ _ _
    · have hwfamap : wfJ (JVal.obj amap) = true := by
        rw [wfJ] at hwf
        simp only [Bool.and_eq_true] at hwf
        exact wfJ_of_lookup hwf.2 hacm
      rw [wfJ] at hwfamap
      simp only [Bool.and_eq_true] at hwfamap
      exact filter_eq_setKey_self amap act _ hwfamap.1
    · exact filter_ne_setKey fields "activityConfigMap" _

/-! ## Claims -/

/-- C1 counterexample: the claim quantifies over every application
identifier present in the store, but the application record of `x.y`
below is present (its stored value decodes to the empty document) and
has no `activityConfigMap` field, yet `enable` reports failure and
leaves the store unchanged instead of succeeding: the code's not-found
test is Python truthiness of the decoded record, which the empty
document fails. -/
theorem claim_C1_counterexample :
    OnyxStore.get ⟨[("eac_app_x.y", "\x7b\x7d")]⟩ ("eac_app_" ++ "x.y") = some "\x7b\x7d" ∧
    jsonDecode "\x7b\x7d" = some (JVal.obj []) ∧
    enable_handwriting ⟨[("eac_app_x.y", "\x7b\x7d")]⟩ "x.y" "some.View" "x.y.MainActivity" =
      some (false, ⟨[("eac_app_x.y", "\x7b\x7d")]⟩) :=
  ⟨rfl, rfl, rfl⟩

/-- C1 (amended): for every application whose stored record decodes to a
non-empty document (even one with no `activityConfigMap` field, and with
`activityConfigMap` a mapping when present) and a non-empty draw view
key, `enable(appId, drawViewKey, activityId)` succeeds: it initializes
`activityConfigMap` when absent, stores `build(drawViewKey, activityId)`
under the activity identifier, and persists, so that afterwards the
entry read back for the activity passes the active test with
`drawViewKey` equal to the given key. -/
theorem claim_C1_enable_succeeds (s : OnyxStore) (pkg dvk act : String)
    (fields : List (String × JVal))
    (hget : get_app_config s pkg = some (JVal.obj fields))
    (hwr : wfRecord fields = true)
    (hdvk : okName dvk = true) (hact : okName act = true)
    (hdvkne : dvk ≠ "") :
    ∃ st2 fields2 amap2,
      enable_handwriting s pkg dvk act = some (true, st2) ∧
      get_app_config st2 pkg = some (JVal.obj fields2) ∧
      lookupKey fields2 "activityConfigMap" = some (JVal.obj amap2) ∧
      lookupKey amap2 act = some (create_activity_config dvk act) ∧
      specActive (create_activity_config dvk act) = true ∧
      ((objLookup (create_activity_config dvk act) "noteConfig").bind
        (fun nc => objLookup nc "drawViewKey")) = some (JVal.str dvk) := by
  obtain ⟨fields2, amap2, heq, hwf2, hwr2, hlk, hnd, hlka, hflt, hfra⟩ :=
    enable_success_general s pkg dvk act fields hget hwr hdvk hact
  refine ⟨_, fields2, amap2, heq, get_app_config_set s pkg _ hwf2, hlk, hlka, ?_, ?_⟩
  · simp [specActive, create_activity_config, lookupKey, hdvkne]
  · simp [objLookup, create_activity_config, lookupKey]

/-- C1 witness: the amended enable succeeds on a concrete store holding
a one-field record without an `activityConfigMap`. -/
theorem claim_C1_witness :
    get_app_config ⟨[("eac_app_p1", "\x7b\"a\":true\x7d")]⟩ "p1" =
      some (JVal.obj [("a", JVal.bool true)]) ∧
    wfRecord [("a", JVal.bool true)] = true ∧
    okName "v.K" = true ∧ okName "p1.Main" = true ∧ "v.K" ≠ "" ∧
    (∃ st2 fields2 amap2,
      enable_handwriting ⟨[("eac_app_p1", "\x7b\"a\":true\x7d")]⟩ "p1" "v.K" "p1.Main" =
        some (true, st2) ∧
      get_app_config st2 "p1" = some (JVal.obj fields2) ∧
      lookupKey fields2 "activityConfigMap" = some (JVal.obj amap2) ∧
      lookupKey amap2 "p1.Main" = some (create_activity_config "v.K" "p1.Main") ∧
      specActive (create_activity_config "v.K" "p1.Main") = true ∧
      ((objLookup (create_activity_config "v.K" "p1.Main") "noteConfig").bind
        (fun nc => objLookup nc "drawViewKey")) = some (JVal.str "v.K")) :=
  ⟨rfl,
   by simp [wfRecord, wfJ, wfObj, keysNodup, hasKey, lookupKey] <;> decide,
   by decide, by decide, by decide,
   claim_C1_enable_succeeds ⟨[("eac_app_p1", "\x7b\"a\":true\x7d")]⟩ "p1" "v.K" "p1.Main"
     [("a", JVal.bool true)] rfl
     (by simp [wfRecord, wfJ, wfObj, keysNodup, hasKey, lookupKey] <;> decide)
     (by decide) (by decide) (by decide)⟩

/-- C4: enabling an application whose identifier is absent from the
store fails (reporting not found) and returns with the store unchanged:
no write is attempted on this failure path. -/
theorem claim_C4_enable_absent (s : OnyxStore) (pkg dvk act : String)
    (h : s.get ("eac_app_" ++ pkg) = none) :
    enable_handwriting s pkg dvk act = some (false, s) := by
  simp [enable_handwriting, get_app_config, h, truthyOpt]

/-- C4 witness: enable on the empty store fails and leaves it
unchanged. -/
theorem claim_C4_witness :
    OnyxStore.get ⟨[]⟩ ("eac_app_" ++ "x.y") = none ∧
    enable_handwriting ⟨[]⟩ "x.y" "some.View" "a.B" = some (false, ⟨[]⟩) :=
  ⟨rfl, claim_C4_enable_absent ⟨[]⟩ "x.y" "some.View" "a.B" rfl⟩

/-- C7: the codec round-trips every well-formed record, re-encoding an
unmodified decoded record reproduces the stored string byte for byte,
and the deterministic serializer emits no whitespace at all for records
whose strings are space-free (compactness: the only whitespace it can
ever emit is space characters inside string content). -/
theorem claim_C7_codec_roundtrip (R : JVal) (h : wfJ R = true) :
    jsonDecode (jsonEncode R) = some R ∧
    (∀ s : String, s = jsonEncode R → (jsonDecode s).map jsonEncode = some s) ∧
    (jNoSpace R = true → (jsonEncode R).data.all (fun c => !c.isWhitespace) = true) := by
  have hrt := jsonDecode_jsonEncode h
  refine ⟨hrt, ?_, ?_⟩
  · intro s hs
    subst hs
    rw [hrt]
    rfl
  · intro hns
    exact (enc_no_space (sizeOf R)).1 R (le_refl _) h hns

/-- C7 witness: round trip on a concrete record. -/
theorem claim_C7_witness :
    wfJ (JVal.obj [("a", JVal.str "b")]) = true ∧
    jsonDecode (jsonEncode (JVal.obj [("a", JVal.str "b")])) =
      some (JVal.obj [("a", JVal.str "b")]) :=
  ⟨by simp [wfJ, wfObj, keysNodup, hasKey, lookupKey] <;> decide,
   (claim_C7_codec_roundtrip (JVal.obj [("a", JVal.str "b")])
     (by simp [wfJ, wfObj, keysNodup, hasKey, lookupKey] <;> decide)).1⟩

/-- C8: the quick subcommand on an application identifier absent from
the preset catalog exits with status 1 before touching any store entry:
the backup is not created, nothing is read or written, and the store is
returned unchanged. -/
theorem claim_C8_quick_unknown (s : OnyxStore) (app : String) (act : Option String)
    (b : Bool) (h : lookupKey KNOWN_APPS app = none) :
    quick_command s app act b = some ⟨1, false, s⟩ := by
  simp [quick_command, h]

/-- C8 witness: quick on an unknown identifier over the empty store. -/
theorem claim_C8_witness :
    lookupKey KNOWN_APPS "com.example.unknown" = none ∧
    quick_command ⟨[]⟩ "com.example.unknown" none true = some ⟨1, false, ⟨[]⟩⟩ :=
  ⟨rfl, claim_C8_quick_unknown ⟨[]⟩ "com.example.unknown" none true rfl⟩

/-- C9: the builder is a pure function of the draw view key and activity
identifier: it echoes the activity under `clsName`, installs the key
under `noteConfig.drawViewKey`, and fixes the policy constants
(`displayConfig.contrast` 30, `noteConfig.repaintLatency` 500,
`refreshConfig.updateMode` 2, the enable flags true,
`disableScrollAnim` false, `noteConfig.globalStrokeStyle.strokeColor`
-16777216) independent of any store state, which it never receives. -/
theorem claim_C9_builder (dvk act : String) :
    objLookup (create_activity_config dvk act) "clsName" = some (JVal.str act) ∧
    ((objLookup (create_activity_config dvk act) "noteConfig").bind
      (fun nc => objLookup nc "drawViewKey")) = some (JVal.str dvk) ∧
    ((objLookup (create_activity_config dvk act) "displayConfig").bind
      (fun dc => objLookup dc "contrast")) = some (JVal.num 30) ∧
    ((objLookup (create_activity_config dvk act) "noteConfig").bind
      (fun nc => objLookup nc "repaintLatency")) = some (JVal.num 500) ∧
    ((objLookup (create_activity_config dvk act) "refreshConfig").bind
      (fun rc => objLookup rc "updateMode")) = some (JVal.num 2) ∧
    objLookup (create_activity_config dvk act) "enable" = some (JVal.bool true) ∧
    ((objLookup (create_activity_config dvk act) "noteConfig").bind
      (fun nc => objLookup nc "enable")) = some (JVal.bool true) ∧
    objLookup (create_activity_config dvk act) "disableScrollAnim" = some (JVal.bool false) ∧
    ((objLookup (create_activity_config dvk act) "noteConfig").bind
      (fun nc => (objLookup nc "globalStrokeStyle").bind
        (fun gs => objLookup gs "strokeColor"))) = some (JVal.num (-16777216)) := by
  refine ⟨?_, ?_, ?_, ?_, ?_, ?_, ?_, ?_, ?_⟩ <;>
    simp [objLookup, create_activity_config, lookupKey]

/-- C10: a stored value that decodes to the empty document is treated by
enable and disable exactly like an absent application: both report not
found, fail, and perform no write, because the not-found check tests the
decoded record for Python truthiness rather than mere presence. -/
theorem claim_C10_empty_record (s : OnyxStore) (pkg dvk act : String)
    (act2 : Option String) (raw : String)
    (hraw : s.get ("eac_app_" ++ pkg) = some raw)
    (hdec : jsonDecode raw = some (JVal.obj [])) :
    enable_handwriting s pkg dvk act = some (false, s) ∧
    disable_handwriting s pkg act2 = some (false, s) := by
  have hget : get_app_config s pkg = some (JVal.obj []) := by
    simp [get_app_config, hraw, hdec]
  constructor
  · simp [enable_handwriting, hget, truthyOpt, pyTruthy]
  · simp [disable_handwriting, hget, truthyOpt, pyTruthy]

/-- C10 witness: a store holding the record text of two braces. -/
theorem claim_C10_witness :
    OnyxStore.get ⟨[("eac_app_q", "\x7b\x7d")]⟩ ("eac_app_" ++ "q") = some "\x7b\x7d" ∧
    jsonDecode "\x7b\x7d" = some (JVal.obj []) ∧
    (enable_handwriting ⟨[("eac_app_q", "\x7b\x7d")]⟩ "q" "v.K" "a.B" =
      some (false, ⟨[("eac_app_q", "\x7b\x7d")]⟩) ∧
    disable_handwriting ⟨[("eac_app_q", "\x7b\x7d")]⟩ "q" none =
      some (false, ⟨[("eac_app_q", "\x7b\x7d")]⟩)) :=
  ⟨rfl, rfl,
   claim_C10_empty_record ⟨[("eac_app_q", "\x7b\x7d")]⟩ "q" "v.K" "a.B" none
     "\x7b\x7d" rfl rfl⟩

/-- C2: disable without an activity argument removes from
`activityConfigMap` exactly the entries whose `noteConfig.enable` is
true and whose `noteConfig.drawViewKey` is non-empty, and no others;
every entry failing that active test survives verbatim (the surviving
list is the filter of the original by the negated test, preserving
values and order), and all other record fields are untouched. -/
theorem claim_C2_disable_all (s : OnyxStore) (pkg : String)
    (fields amap : List (String × JVal))
    (hget : get_app_config s pkg = some (JVal.obj fields))
    (hne : fields ≠ [])
    (hwf : wfJ (JVal.obj fields) = true)
    (hacm : lookupKey fields "activityConfigMap" = some (JVal.obj amap))
    (hents : amap.all (fun e => wfEntry e.2) = true) :
    ∃ st2 fields2,
      disable_handwriting s pkg none = some (true, st2) ∧
      get_app_config st2 pkg = some (JVal.obj fields2) ∧
      lookupKey fields2 "activityConfigMap" =
        some (JVal.obj (amap.filter (fun e => !(specActive e.2)))) ∧
      fields2.filter (fun e => !(e.1 == "activityConfigMap")) =
        fields.filter (fun e => !(e.1 == "activityConfigMap")) := by
  have hentsAll : ∀ e ∈ amap, wfEntry e.2 = true := by
    simpa [List.all_eq_true] using hents
  have hwfamap : wfJ (JVal.obj amap) = true := by
    rw [wfJ] at hwf
    simp only [Bool.and_eq_true] at hwf
    exact wfJ_of_lookup hwf.2 hacm
  have hnd : keysNodup amap = true := by
    rw [wfJ] at hwfamap
    simp only [Bool.and_eq_true] at hwfamap
    exact hwfamap.1
  have hokacm : okName "activityConfigMap" = true := by decide
  by_cases hae : amap = []
  · subst hae
    have hfalsy : pyTruthy ((lookupKey fields "activityConfigMap").getD (JVal.obj [])) = false := by
      rw [hacm]
      rfl
    refine ⟨s, fields, disable_eq_falsyMap s pkg none fields hget hne hfalsy, hget, ?_, rfl⟩
    simpa using hacm
  · have hks := activeKeys_eq hentsAll
    have heq := disable_eq_removeAll s pkg fields amap
      ((amap.filter (fun e => specActive e.2)).map Prod.fst) hget hne hacm hae hks
    have hrw : removeKeys amap ((amap.filter (fun e => specActive e.2)).map Prod.fst) =
        amap.filter (fun e => !(specActive e.2)) := by
      rw [removeKeys_eq_filter _ hnd]
      apply List.filter_congr
      intro e he
      rw [contains_filterKeys_of_nodup (fun e => specActive e.2) hnd he]
    rw [hrw] at heq
    have hwfflt : wfJ (JVal.obj (amap.filter (fun e => !(specActive e.2)))) = true := by
      rw [wfJ]
      rw [wfJ] at hwfamap
      simp only [Bool.and_eq_true] at hwfamap
      simp [keysNodup_filter amap _ hwfamap.1, wfObj_filter _ hwfamap.2]
    have hwf2 : wfJ (JVal.obj (setKey fields "activityConfigMap"
        (JVal.obj (amap.filter (fun e => !(specActive e.2)))))) = true :=
      wfJ_obj_setKey hwf hokacm hwfflt
    exact ⟨_, _, heq, get_app_config_set s pkg _ hwf2,
      lookupKey_setKey_self _ _ _, filter_ne_setKey _ _ _⟩

/-- C3 counterexample: the claim demands an `ActivityNotFound` failure
without a write whenever the named activity is absent from
`activityConfigMap`, but on a record whose `activityConfigMap` is empty
the code returns success (the empty map is falsy and short-circuits the
lookup), so the absent activity `x.y.A` is reported as success, not
failure. -/
theorem claim_C3_counterexample :
    jsonDecode "\x7b\"activityConfigMap\":\x7b\x7d\x7d" =
      some (JVal.obj [("activityConfigMap", JVal.obj [])]) ∧
    disable_handwriting ⟨[("eac_app_x.y", "\x7b\"activityConfigMap\":\x7b\x7d\x7d")]⟩
      "x.y" (some "x.y.A") =
      some (true, ⟨[("eac_app_x.y", "\x7b\"activityConfigMap\":\x7b\x7d\x7d")]⟩) :=
  ⟨rfl, rfl⟩

/-- C3 (amended): disable with a named activity removes only that entry
when it is present (every other entry survives verbatim and only other
record fields are untouched); when the named activity is absent from a
NON-EMPTY `activityConfigMap` it reports failure and persists nothing;
when `activityConfigMap` is empty the call instead succeeds as a no-op
without a write. -/
theorem claim_C3_disable_one (s : OnyxStore) (pkg act : String)
    (fields amap : List (String × JVal))
    (hget : get_app_config s pkg = some (JVal.obj fields))
    (hne : fields ≠ [])
    (hwf : wfJ (JVal.obj fields) = true)
    (hacm : lookupKey fields "activityConfigMap" = some (JVal.obj amap)) :
    (hasKey amap act = true →
      ∃ st2 fields2,
        disable_handwriting s pkg (some act) = some (true, st2) ∧
        get_app_config st2 pkg = some (JVal.obj fields2) ∧
        lookupKey fields2 "activityConfigMap" =
          some (JVal.obj (amap.filter (fun e => !(e.1 == act)))) ∧
        lookupKey (amap.filter (fun e => !(e.1 == act))) act = none ∧
        fields2.filter (fun e => !(e.1 == "activityConfigMap")) =
          fields.filter (fun e => !(e.1 == "activityConfigMap"))) ∧
    (hasKey amap act = false → amap ≠ [] →
      disable_handwriting s pkg (some act) = some (false, s)) ∧
    (amap = [] → disable_handwriting s pkg (some act) = some (true, s)) := by
  have hwfamap : wfJ (JVal.obj amap) = true := by
    rw [wfJ] at hwf
    simp only [Bool.and_eq_true] at hwf
    exact wfJ_of_lookup hwf.2 hacm
  have hnd : keysNodup amap = true := by
    rw [wfJ] at hwfamap
    simp only [Bool.and_eq_true] at hwfamap
    exact hwfamap.1
  have hokacm : okName "activityConfigMap" = true := by decide
  refine ⟨?_, ?_, ?_⟩
  · intro hhas
    have hae : amap ≠ [] := by
      intro hh
      subst hh
      simp [hasKey, lookupKey] at hhas
    have heq := disable_eq_of_act_present s pkg act fields amap hget hne hacm hae hhas
    rw [delKey_eq_filter amap act hnd] at heq
    have hwfflt : wfJ (JVal.obj (amap.filter (fun e => !(e.1 == act)))) = true := by
      rw [wfJ]
      rw [wfJ] at hwfamap
      simp only [Bool.and_eq_true] at hwfamap
      simp [keysNodup_filter amap _ hwfamap.1, wfObj_filter _ hwfamap.2]
    have hwf2 : wfJ (JVal.obj (setKey fields "activityConfigMap"
        (JVal.obj (amap.filter (fun e => !(e.1 == act)))))) = true :=
      wfJ_obj_setKey hwf hokacm hwfflt
    exact ⟨_, _, heq, get_app_config_set s pkg _ hwf2,
      lookupKey_setKey_self _ _ _, lookupKey_filter_self amap act, filter_ne_setKey _ _ _⟩
  · intro hhas hae
    exact disable_eq_of_act_missing s pkg act fields amap hget hne hacm hae hhas
  · intro hae
    subst hae
    have hfalsy : pyTruthy ((lookupKey fields "activityConfigMap").getD (JVal.obj [])) = false := by
      rw [hacm]
      rfl
    exact disable_eq_falsyMap s pkg (some act) fields hget hne hfalsy

/-- C5 counterexample: the claim quantifies over every app present in
the store, but for the app below (present, stored record the empty
document) both enable calls fail and leave the store unchanged, so
afterwards there is no entry at all for the activity, not exactly one
with the second key. -/
theorem claim_C5_counterexample :
    enable_handwriting ⟨[("eac_app_x.z", "\x7b\x7d")]⟩ "x.z" "k.A" "a.B" =
      some (false, ⟨[("eac_app_x.z", "\x7b\x7d")]⟩) ∧
    enable_handwriting ⟨[("eac_app_x.z", "\x7b\x7d")]⟩ "x.z" "k.B" "a.B" =
      some (false, ⟨[("eac_app_x.z", "\x7b\x7d")]⟩) ∧
    get_app_config ⟨[("eac_app_x.z", "\x7b\x7d")]⟩ "x.z" = some (JVal.obj []) :=
  ⟨rfl, rfl, rfl⟩

/-- C5 (amended): enable is overwrite-idempotent on every app whose
stored record decodes to a non-empty well-shaped document: calling
`enable(app, key1, act)` and then `enable(app, key2, act)` leaves
exactly one entry in `activityConfigMap` for `act` (the filter of the
final map by that key is the one-element list), and that entry is the
built configuration whose `noteConfig.drawViewKey` equals `key2`. -/
theorem claim_C5_enable_overwrite (s : OnyxStore) (pkg key1 key2 act : String)
    (fields : List (String × JVal))
    (hget : get_app_config s pkg = some (JVal.obj fields))
    (hwr : wfRecord fields = true)
    (hk1 : okName key1 = true) (hk2 : okName key2 = true) (hact : okName act = true) :
    ∃ st1 st2 fields2 amap2,
      enable_handwriting s pkg key1 act = some (true, st1) ∧
      enable_handwriting st1 pkg key2 act = some (true, st2) ∧
      get_app_config st2 pkg = some (JVal.obj fields2) ∧
      lookupKey fields2 "activityConfigMap" = some (JVal.obj amap2) ∧
      amap2.filter (fun e => e.1 == act) = [(act, create_activity_config key2 act)] ∧
      ((objLookup (create_activity_config key2 act) "noteConfig").bind
        (fun nc => objLookup nc "drawViewKey")) = some (JVal.str key2) := by
  obtain ⟨f2, a2, heq1, hwfA, hwrA, _, _, _, _, _⟩ :=
    enable_success_general s pkg key1 act fields hget hwr hk1 hact
  have hget1 : get_app_config (s.set ("eac_app_" ++ pkg) (jsonEncode (JVal.obj f2))) pkg =
      some (JVal.obj f2) := get_app_config_set s pkg _ hwfA
  obtain ⟨f3, a3, heq2, hwfB, hwrB, hlk3, hnd3, hlka3, hflt3, _⟩ :=
    enable_success_general _ pkg key2 act f2 hget1 hwrA hk2 hact
  refine ⟨_, _, f3, a3, heq1, heq2, get_app_config_set _ pkg _ hwfB, hlk3, hflt3, ?_⟩
  simp [objLookup, create_activity_config, lookupKey]

/-- C6: each of the three mutating cycles (enable, disable of one
activity, disable of all active entries) writes exactly one record back,
mutates only the `activityConfigMap` field of that record (every other
field survives verbatim, in value and order), and neither creates nor
deletes an Application Record: the store's key list is unchanged by the
write. -/
theorem claim_C6_frame (s : OnyxStore) (pkg dvk act : String)
    (fields amap : List (String × JVal))
    (hget : get_app_config s pkg = some (JVal.obj fields))
    (hwr : wfRecord fields = true)
    (hdvk : okName dvk = true) (hact : okName act = true)
    (hacm : lookupKey fields "activityConfigMap" = some (JVal.obj amap))
    (hamapne : amap ≠ [])
    (hents : amap.all (fun e => wfEntry e.2) = true)
    (hhas : hasKey amap act = true) :
    (∃ fields2,
      enable_handwriting s pkg dvk act =
        some (true, s.set ("eac_app_" ++ pkg) (jsonEncode (JVal.obj fields2))) ∧
      fields2.filter (fun e => !(e.1 == "activityConfigMap")) =
        fields.filter (fun e => !(e.1 == "activityConfigMap"))) ∧
    (∃ fields3,
      disable_handwriting s pkg (some act) =
        some (true, s.set ("eac_app_" ++ pkg) (jsonEncode (JVal.obj fields3))) ∧
      fields3.filter (fun e => !(e.1 == "activityConfigMap")) =
        fields.filter (fun e => !(e.1 == "activityConfigMap"))) ∧
    (∃ fields4,
      disable_handwriting s pkg none =
        some (true, s.set ("eac_app_" ++ pkg) (jsonEncode (JVal.obj fields4))) ∧
      fields4.filter (fun e => !(e.1 == "activityConfigMap")) =
        fields.filter (fun e => !(e.1 == "activityConfigMap"))) ∧
    (∀ v : String, (s.set ("eac_app_" ++ pkg) v).entries.map Prod.fst =
      s.entries.map Prod.fst) := by
  obtain ⟨hne, hwf, _⟩ := wfRecord_spec hwr
  have hentsAll : ∀ e ∈ amap, wfEntry e.2 = true := by
    simpa [List.all_eq_true] using hents
  refine ⟨?_, ?_, ?_, ?_⟩
  · obtain ⟨fields2, amap2, heq, _, _, _, _, _, _, hfra⟩ :=
      enable_success_general s pkg dvk act fields hget hwr hdvk hact
    exact ⟨fields2, heq, hfra⟩
  · exact ⟨_, disable_eq_of_act_present s pkg act fields amap hget hne hacm hamapne hhas,
      filter_ne_setKey _ _ _⟩
  · exact ⟨_, disable_eq_removeAll s pkg fields amap _ hget hne hacm hamapne
      (activeKeys_eq hentsAll), filter_ne_setKey _ _ _⟩
  · intro v
    obtain ⟨raw, hraw, _⟩ := get_app_config_isSome hget
    have hhk : hasKey s.entries ("eac_app_" ++ pkg) = true := by
      simp [hasKey]
      rw [OnyxStore.get] at hraw
      simp [hraw]
    exact map_fst_setKey_of_hasKey s.entries ("eac_app_" ++ pkg) v hhk

/-- C2 witness: a record with one active and one inactive entry; the
scoped-less disable succeeds on it. -/
theorem claim_C2_witness :
    get_app_config ⟨[("eac_app_pc", "\x7b\"activityConfigMap\":\x7b\"a.A\":\x7b\"noteConfig\":\x7b\"drawViewKey\":\"v.W\",\"enable\":true\x7d\x7d,\"a.B\":\x7b\"noteConfig\":\x7b\"enable\":false\x7d\x7d\x7d\x7d")]⟩ "pc" =
      some (JVal.obj [("activityConfigMap", JVal.obj
        [ ("a.A", JVal.obj [("noteConfig", JVal.obj
            [("drawViewKey", JVal.str "v.W"), ("enable", JVal.bool true)])])
        , ("a.B", JVal.obj [("noteConfig", JVal.obj
            [("enable", JVal.bool false)])]) ])]) ∧
    ([("activityConfigMap", JVal.obj
        [ ("a.A", JVal.obj [("noteConfig", JVal.obj
            [("drawViewKey", JVal.str "v.W"), ("enable", JVal.bool true)])])
        , ("a.B", JVal.obj [("noteConfig", JVal.obj
            [("enable", JVal.bool false)])]) ])] : List (String × JVal)) ≠ [] ∧
    wfJ (JVal.obj [("activityConfigMap", JVal.obj
        [ ("a.A", JVal.obj [("noteConfig", JVal.obj
            [("drawViewKey", JVal.str "v.W"), ("enable", JVal.bool true)])])
        , ("a.B", JVal.obj [("noteConfig", JVal.obj
            [("enable", JVal.bool false)])]) ])]) = true ∧
    lookupKey [("activityConfigMap", JVal.obj
        [ ("a.A", JVal.obj [("noteConfig", JVal.obj
            [("drawViewKey", JVal.str "v.W"), ("enable", JVal.bool true)])])
        , ("a.B", JVal.obj [("noteConfig", JVal.obj
            [("enable", JVal.bool false)])]) ])] "activityConfigMap" =
      some (JVal.obj
        [ ("a.A", JVal.obj [("noteConfig", JVal.obj
            [("drawViewKey", JVal.str "v.W"), ("enable", JVal.bool true)])])
        , ("a.B", JVal.obj [("noteConfig", JVal.obj
            [("enable", JVal.bool false)])]) ]) ∧
    ([ ("a.A", JVal.obj [("noteConfig", JVal.obj
          [("drawViewKey", JVal.str "v.W"), ("enable", JVal.bool true)])])
     , ("a.B", JVal.obj [("noteConfig", JVal.obj
          [("enable", JVal.bool false)])]) ].all (fun e => wfEntry e.2)) = true ∧
    (∃ st2 fields2,
      disable_handwriting ⟨[("eac_app_pc", "\x7b\"activityConfigMap\":\x7b\"a.A\":\x7b\"noteConfig\":\x7b\"drawViewKey\":\"v.W\",\"enable\":true\x7d\x7d,\"a.B\":\x7b\"noteConfig\":\x7b\"enable\":false\x7d\x7d\x7d\x7d")]⟩ "pc" none = some (true, st2) ∧
      get_app_config st2 "pc" = some (JVal.obj fields2) ∧
      lookupKey fields2 "activityConfigMap" =
        some (JVal.obj ([ ("a.A", JVal.obj [("noteConfig", JVal.obj
            [("drawViewKey", JVal.str "v.W"), ("enable", JVal.bool true)])])
          , ("a.B", JVal.obj [("noteConfig", JVal.obj
              [("enable", JVal.bool false)])]) ].filter (fun e => !(specActive e.2)))) ∧
      fields2.filter (fun e => !(e.1 == "activityConfigMap")) =
        [("activityConfigMap", JVal.obj
          [ ("a.A", JVal.obj [("noteConfig", JVal.obj
              [("drawViewKey", JVal.str "v.W"), ("enable", JVal.bool true)])])
          , ("a.B", JVal.obj [("noteConfig", JVal.obj
              [("enable", JVal.bool false)])]) ])].filter (fun e => !(e.1 == "activityConfigMap"))) :=
  ⟨rfl, by simp,
   by simp [wfJ, wfObj, keysNodup, hasKey, lookupKey] <;> decide,
   rfl, by decide,
   claim_C2_disable_all _ "pc" _ _ rfl (by simp)
     (by simp [wfJ, wfObj, keysNodup, hasKey, lookupKey] <;> decide)
     rfl (by decide)⟩

/-- C3 witness: the same shape of record; removing the present activity
`a.A` keeps `a.B` verbatim, a missing activity on the non-empty map
fails, and the empty map short-circuits. -/
theorem claim_C3_witness :
    get_app_config ⟨[("eac_app_pd", "\x7b\"activityConfigMap\":\x7b\"a.A\":\x7b\"noteConfig\":\x7b\"drawViewKey\":\"v.W\",\"enable\":true\x7d\x7d,\"a.B\":\x7b\"noteConfig\":\x7b\"enable\":false\x7d\x7d\x7d\x7d")]⟩ "pd" =
      some (JVal.obj [("activityConfigMap", JVal.obj
        [ ("a.A", JVal.obj [("noteConfig", JVal.obj
            [("drawViewKey", JVal.str "v.W"), ("enable", JVal.bool true)])])
        , ("a.B", JVal.obj [("noteConfig", JVal.obj
            [("enable", JVal.bool false)])]) ])]) ∧
    ((hasKey
        [ ("a.A", JVal.obj [("noteConfig", JVal.obj
            [("drawViewKey", JVal.str "v.W"), ("enable", JVal.bool true)])])
        , ("a.B", JVal.obj [("noteConfig", JVal.obj
            [("enable", JVal.bool false)])]) ] "a.A") = true) ∧
    (∃ st2 fields2,
      disable_handwriting ⟨[("eac_app_pd", "\x7b\"activityConfigMap\":\x7b\"a.A\":\x7b\"noteConfig\":\x7b\"drawViewKey\":\"v.W\",\"enable\":true\x7d\x7d,\"a.B\":\x7b\"noteConfig\":\x7b\"enable\":false\x7d\x7d\x7d\x7d")]⟩ "pd" (some "a.A") = some (true, st2) ∧
      get_app_config st2 "pd" = some (JVal.obj fields2) ∧
      lookupKey fields2 "activityConfigMap" =
        some (JVal.obj ([ ("a.A", JVal.obj [("noteConfig", JVal.obj
            [("drawViewKey", JVal.str "v.W"), ("enable", JVal.bool true)])])
          , ("a.B", JVal.obj [("noteConfig", JVal.obj
              [("enable", JVal.bool false)])]) ].filter (fun e => !(e.1 == "a.A")))) ∧
      lookupKey ([ ("a.A", JVal.obj [("noteConfig", JVal.obj
          [("drawViewKey", JVal.str "v.W"), ("enable", JVal.bool true)])])
        , ("a.B", JVal.obj [("noteConfig", JVal.obj
            [("enable", JVal.bool false)])]) ].filter (fun e => !(e.1 == "a.A"))) "a.A" = none ∧
      fields2.filter (fun e => !(e.1 == "activityConfigMap")) =
        [("activityConfigMap", JVal.obj
          [ ("a.A", JVal.obj [("noteConfig", JVal.obj
              [("drawViewKey", JVal.str "v.W"), ("enable", JVal.bool true)])])
          , ("a.B", JVal.obj [("noteConfig", JVal.obj
              [("enable", JVal.bool false)])]) ])].filter (fun e => !(e.1 == "activityConfigMap"))) :=
  ⟨rfl, rfl,
   (claim_C3_disable_one
     ⟨[("eac_app_pd", "\x7b\"activityConfigMap\":\x7b\"a.A\":\x7b\"noteConfig\":\x7b\"drawViewKey\":\"v.W\",\"enable\":true\x7d\x7d,\"a.B\":\x7b\"noteConfig\":\x7b\"enable\":false\x7d\x7d\x7d\x7d")]⟩
     "pd" "a.A"
     [("activityConfigMap", JVal.obj
        [ ("a.A", JVal.obj [("noteConfig", JVal.obj
            [("drawViewKey", JVal.str "v.W"), ("enable", JVal.bool true)])])
        , ("a.B", JVal.obj [("noteConfig", JVal.obj
            [("enable", JVal.bool false)])]) ])]
     [ ("a.A", JVal.obj [("noteConfig", JVal.obj
         [("drawViewKey", JVal.str "v.W"), ("enable", JVal.bool true)])])
     , ("a.B", JVal.obj [("noteConfig", JVal.obj
         [("enable", JVal.bool false)])]) ]
     rfl (by simp)
     (by simp [wfJ, wfObj, keysNodup, hasKey, lookupKey] <;> decide)
     rfl).1 rfl⟩

/-- C5 witness: two chained enables on a concrete one-field record. -/
theorem claim_C5_witness :
    get_app_config ⟨[("eac_app_pe", "\x7b\"a\":true\x7d")]⟩ "pe" =
      some (JVal.obj [("a", JVal.bool true)]) ∧
    wfRecord [("a", JVal.bool true)] = true ∧
    okName "k.A" = true ∧ okName "k.B" = true ∧ okName "m.Main" = true ∧
    (∃ st1 st2 fields2 amap2,
      enable_handwriting ⟨[("eac_app_pe", "\x7b\"a\":true\x7d")]⟩ "pe" "k.A" "m.Main" =
        some (true, st1) ∧
      enable_handwriting st1 "pe" "k.B" "m.Main" = some (true, st2) ∧
      get_app_config st2 "pe" = some (JVal.obj fields2) ∧
      lookupKey fields2 "activityConfigMap" = some (JVal.obj amap2) ∧
      amap2.filter (fun e => e.1 == "m.Main") =
        [("m.Main", create_activity_config "k.B" "m.Main")] ∧
      ((objLookup (create_activity_config "k.B" "m.Main") "noteConfig").bind
        (fun nc => objLookup nc "drawViewKey")) = some (JVal.str "k.B")) :=
  ⟨rfl,
   by simp [wfRecord, wfJ, wfObj, keysNodup, hasKey, lookupKey] <;> decide,
   by decide, by decide, by decide,
   claim_C5_enable_overwrite _ "pe" "k.A" "k.B" "m.Main" _ rfl
     (by simp [wfRecord, wfJ, wfObj, keysNodup, hasKey, lookupKey] <;> decide)
     (by decide) (by decide) (by decide)⟩

/-- C6 witness: the frame property on a record with one active and one
inactive entry, enabling and disabling the present activity `a.A`. -/
theorem claim_C6_witness :
    get_app_config ⟨[("eac_app_pf", "\x7b\"activityConfigMap\":\x7b\"a.A\":\x7b\"noteConfig\":\x7b\"drawViewKey\":\"v.W\",\"enable\":true\x7d\x7d,\"a.B\":\x7b\"noteConfig\":\x7b\"enable\":false\x7d\x7d\x7d\x7d")]⟩ "pf" =
      some (JVal.obj [("activityConfigMap", JVal.obj
        [ ("a.A", JVal.obj [("noteConfig", JVal.obj
            [("drawViewKey", JVal.str "v.W"), ("enable", JVal.bool true)])])
        , ("a.B", JVal.obj [("noteConfig", JVal.obj
            [("enable", JVal.bool false)])]) ])]) ∧
    wfRecord [("activityConfigMap", JVal.obj
        [ ("a.A", JVal.obj [("noteConfig", JVal.obj
            [("drawViewKey", JVal.str "v.W"), ("enable", JVal.bool true)])])
        , ("a.B", JVal.obj [("noteConfig", JVal.obj
            [("enable", JVal.bool false)])]) ])] = true ∧
    ((∃ fields2,
      enable_handwriting ⟨[("eac_app_pf", "\x7b\"activityConfigMap\":\x7b\"a.A\":\x7b\"noteConfig\":\x7b\"drawViewKey\":\"v.W\",\"enable\":true\x7d\x7d,\"a.B\":\x7b\"noteConfig\":\x7b\"enable\":false\x7d\x7d\x7d\x7d")]⟩ "pf" "w.K" "a.A" =
        some (true, OnyxStore.set ⟨[("eac_app_pf", "\x7b\"activityConfigMap\":\x7b\"a.A\":\x7b\"noteConfig\":\x7b\"drawViewKey\":\"v.W\",\"enable\":true\x7d\x7d,\"a.B\":\x7b\"noteConfig\":\x7b\"enable\":false\x7d\x7d\x7d\x7d")]⟩ ("eac_app_" ++ "pf") (jsonEncode (JVal.obj fields2))) ∧
      fields2.filter (fun e => !(e.1 == "activityConfigMap")) =
        [("activityConfigMap", JVal.obj
          [ ("a.A", JVal.obj [("noteConfig", JVal.obj
              [("drawViewKey", JVal.str "v.W"), ("enable", JVal.bool true)])])
          , ("a.B", JVal.obj [("noteConfig", JVal.obj
              [("enable", JVal.bool false)])]) ])].filter (fun e => !(e.1 == "activityConfigMap"))) ∧
    (∃ fields3,
      disable_handwriting ⟨[("eac_app_pf", "\x7b\"activityConfigMap\":\x7b\"a.A\":\x7b\"noteConfig\":\x7b\"drawViewKey\":\"v.W\",\"enable\":true\x7d\x7d,\"a.B\":\x7b\"noteConfig\":\x7b\"enable\":false\x7d\x7d\x7d\x7d")]⟩ "pf" (some "a.A") =
        some (true, OnyxStore.set ⟨[("eac_app_pf", "\x7b\"activityConfigMap\":\x7b\"a.A\":\x7b\"noteConfig\":\x7b\"drawViewKey\":\"v.W\",\"enable\":true\x7d\x7d,\"a.B\":\x7b\"noteConfig\":\x7b\"enable\":false\x7d\x7d\x7d\x7d")]⟩ ("eac_app_" ++ "pf") (jsonEncode (JVal.obj fields3))) ∧
      fields3.filter (fun e => !(e.1 == "activityConfigMap")) =
        [("activityConfigMap", JVal.obj
          [ ("a.A", JVal.obj [("noteConfig", JVal.obj
              [("drawViewKey", JVal.str "v.W"), ("enable", JVal.bool true)])])
          , ("a.B", JVal.obj [("noteConfig", JVal.obj
              [("enable", JVal.bool false)])]) ])].filter (fun e => !(e.1 == "activityConfigMap"))) ∧
    (∃ fields4,
      disable_handwriting ⟨[("eac_app_pf", "\x7b\"activityConfigMap\":\x7b\"a.A\":\x7b\"noteConfig\":\x7b\"drawViewKey\":\"v.W\",\"enable\":true\x7d\x7d,\"a.B\":\x7b\"noteConfig\":\x7b\"enable\":false\x7d\x7d\x7d\x7d")]⟩ "pf" none =
        some (true, OnyxStore.set ⟨[("eac_app_pf", "\x7b\"activityConfigMap\":\x7b\"a.A\":\x7b\"noteConfig\":\x7b\"drawViewKey\":\"v.W\",\"enable\":true\x7d\x7d,\"a.B\":\x7b\"noteConfig\":\x7b\"enable\":false\x7d\x7d\x7d\x7d")]⟩ ("eac_app_" ++ "pf") (jsonEncode (JVal.obj fields4))) ∧
      fields4.filter (fun e => !(e.1 == "activityConfigMap")) =
        [("activityConfigMap", JVal.obj
          [ ("a.A", JVal.obj [("noteConfig", JVal.obj
              [("drawViewKey", JVal.str "v.W"), ("enable", JVal.bool true)])])
          , ("a.B", JVal.obj [("noteConfig", JVal.obj
              [("enable", JVal.bool false)])]) ])].filter (fun e => !(e.1 == "activityConfigMap"))) ∧
    (∀ v : String,
      ((OnyxStore.set ⟨[("eac_app_pf", "\x7b\"activityConfigMap\":\x7b\"a.A\":\x7b\"noteConfig\":\x7b\"drawViewKey\":\"v.W\",\"enable\":true\x7d\x7d,\"a.B\":\x7b\"noteConfig\":\x7b\"enable\":false\x7d\x7d\x7d\x7d")]⟩ ("eac_app_" ++ "pf") v).entries.map Prod.fst) =
        ([("eac_app_pf", "\x7b\"activityConfigMap\":\x7b\"a.A\":\x7b\"noteConfig\":\x7b\"drawViewKey\":\"v.W\",\"enable\":true\x7d\x7d,\"a.B\":\x7b\"noteConfig\":\x7b\"enable\":false\x7d\x7d\x7d\x7d")] : List (String × String)).map Prod.fst)) :=
  ⟨rfl,
   by simp [wfRecord, wfJ, wfObj, keysNodup, hasKey, lookupKey] <;> decide,
   claim_C6_frame _ "pf" "w.K" "a.A" _ _ rfl
     (by simp [wfRecord, wfJ, wfObj, keysNodup, hasKey, lookupKey] <;> decide)
     (by decide) (by decide) rfl (by simp) (by decide) rfl⟩
